import Mathlib

/-!
Verification of the EikonDownloader repository (src/eikondownloader).

This file gives a shallow embedding, in Lean 4, of the parts of the
repository that the frozen claims are about:

* `EikonDownloader.generate_decade_dates` and `generate_target_dates`
  (date-range partitioning, src/eikondownloader/download/downloading.py),
* the retry loops of `get_index_chain`, `get_constituents_data` and
  `get_stock_timeseries` (same file),
* the placeholder construction `_empty_df_chain` / `_empty_df_data`,
* the duplicate-date merge of `get_stock_timeseries`,
* `OSDownloader.download_bucket`,
* `DataProcessor.split_list` (src/eikondownloader/processing/processor.py).

Python `datetime.datetime` values (at midnight, as used throughout the
repository) are embedded as `Date` triples compared lexicographically,
which is exactly how Python compares `datetime` objects.  Machine floats
never carry information in the modelled fragments: the only float values
that matter are `np.nan` placeholders, embedded as `Cell.nan`.
Python exceptions are embedded as `Except String`.  Blocking sleeps
(`time.sleep`) have no observable effect on the returned values and are
dropped.  Remote calls (`ek.get_data`, `ek.get_timeseries`, MinIO) are
opaque external collaborators; each embedded retry loop takes the
sequence of outcomes of the successive remote calls as an explicit
argument (`att : Nat → ...`), one outcome per performed attempt.
-/

/-- A calendar date, embedding Python `datetime.datetime` at midnight:
`year`/`month`/`day` fields, compared lexicographically (Python compares
`datetime` objects field by field in exactly this order). -/
structure Date where
  year : Int
  month : Nat
  day : Nat
deriving DecidableEq, Repr

/-- Python `datetime` comparison: lexicographic on (year, month, day). -/
def Date.lt (a b : Date) : Prop :=
  a.year < b.year ∨
    (a.year = b.year ∧ (a.month < b.month ∨ (a.month = b.month ∧ a.day < b.day)))

instance (a b : Date) : Decidable (Date.lt a b) :=
  inferInstanceAs (Decidable (a.year < b.year ∨
    (a.year = b.year ∧ (a.month < b.month ∨ (a.month = b.month ∧ a.day < b.day)))))

instance : LinearOrder Date where
  lt := Date.lt
  le a b := Date.lt a b ∨ a = b
  le_refl a := Or.inr rfl
  le_trans a b c hab hbc := by
    obtain ⟨y1, m1, d1⟩ := a; obtain ⟨y2, m2, d2⟩ := b; obtain ⟨y3, m3, d3⟩ := c
    simp only [Date.lt, Date.mk.injEq] at *
    omega
  le_antisymm a b hab hba := by
    obtain ⟨y1, m1, d1⟩ := a; obtain ⟨y2, m2, d2⟩ := b
    simp only [Date.lt, Date.mk.injEq] at *
    omega
  le_total a b := by
    obtain ⟨y1, m1, d1⟩ := a; obtain ⟨y2, m2, d2⟩ := b
    simp only [Date.lt, Date.mk.injEq]
    omega
  lt_iff_le_not_le a b := by
    obtain ⟨y1, m1, d1⟩ := a; obtain ⟨y2, m2, d2⟩ := b
    simp only [Date.lt, Date.mk.injEq]
    omega
  decidableLE a b := inferInstanceAs (Decidable (Date.lt a b ∨ a = b))
  decidableEq a b := inferInstanceAs (Decidable (a = b))
  decidableLT a b := inferInstanceAs (Decidable (Date.lt a b))

theorem Date.lt_def (a b : Date) :
    a < b ↔ (a.year < b.year ∨
      (a.year = b.year ∧ (a.month < b.month ∨ (a.month = b.month ∧ a.day < b.day)))) :=
  Iff.rfl

theorem Date.le_def (a b : Date) : a ≤ b ↔ (Date.lt a b ∨ a = b) := Iff.rfl

theorem Date.le_iff (a b : Date) :
    a ≤ b ↔ (a.year < b.year ∨
      (a.year = b.year ∧ (a.month < b.month ∨ (a.month = b.month ∧ a.day ≤ b.day)))) := by
  obtain ⟨y1, m1, d1⟩ := a; obtain ⟨y2, m2, d2⟩ := b
  simp only [Date.le_def, Date.lt, Date.mk.injEq]
  omega

/-- Leap-year test of the Gregorian calendar (as implemented by Python
`datetime` / `calendar.isleap`). -/
def isLeapYear (y : Int) : Bool :=
  (y % 4 == 0 && y % 100 != 0) || y % 400 == 0

/-- Number of days of month `m` of year `y` in the Gregorian calendar
(0 for an out-of-range month index). -/
def daysInMonth (y : Int) (m : Nat) : Nat :=
  if m = 1 ∨ m = 3 ∨ m = 5 ∨ m = 7 ∨ m = 8 ∨ m = 10 ∨ m = 12 then 31
  else if m = 4 ∨ m = 6 ∨ m = 9 ∨ m = 11 then 30
  else if m = 2 then (if isLeapYear y then 29 else 28)
  else 0

theorem daysInMonth_le_31 (y : Int) (m : Nat) : daysInMonth y m ≤ 31 := by
  unfold daysInMonth
  split
  · omega
  · split
    · omega
    · split
      · split <;> omega
      · omega

theorem daysInMonth_pos (y : Int) (m : Nat) (h1 : 1 ≤ m) (h12 : m ≤ 12) :
    1 ≤ daysInMonth y m := by
  unfold daysInMonth
  split
  · omega
  · split
    · omega
    · split
      · split <;> omega
      · omega

/-- The dates representable by Python `datetime`: month in 1..12, day in
1..`daysInMonth`.  (Python's `datetime` constructor enforces this.) -/
def Date.Valid (d : Date) : Prop :=
  1 ≤ d.month ∧ d.month ≤ 12 ∧ 1 ≤ d.day ∧ d.day ≤ daysInMonth d.year d.month

instance (d : Date) : Decidable d.Valid :=
  inferInstanceAs (Decidable (_ ∧ _ ∧ _ ∧ _))

theorem dec31_valid (y : Int) : (Date.mk y 12 31).Valid := by
  unfold Date.Valid daysInMonth
  norm_num

theorem jan1_valid (y : Int) : (Date.mk y 1 1).Valid := by
  unfold Date.Valid daysInMonth
  norm_num

theorem Date.le_dec31 (d : Date) (hd : d.Valid) : d ≤ Date.mk d.year 12 31 := by
  obtain ⟨y, m, dy⟩ := d
  obtain ⟨h1, h2, h3, h4⟩ := hd
  have h31 := daysInMonth_le_31 y m
  rw [Date.le_iff]
  dsimp only at *
  omega

theorem Date.jan1_le (d : Date) (hd : d.Valid) : Date.mk d.year 1 1 ≤ d := by
  obtain ⟨y, m, dy⟩ := d
  obtain ⟨h1, h2, h3, h4⟩ := hd
  rw [Date.le_iff]
  dsimp only at *
  omega

theorem Date.lt_of_year_lt {a b : Date} (h : a.year < b.year) : a < b := by
  rw [Date.lt_def]; exact Or.inl h

theorem Date.year_le_of_le {a b : Date} (h : a ≤ b) : a.year ≤ b.year := by
  rw [Date.le_iff] at h
  omega

theorem Date.year_le_of_lt {a b : Date} (h : a < b) : a.year ≤ b.year := by
  rw [Date.lt_def] at h
  omega

theorem dec31_lt_jan1 {y y' : Int} (h : y < y') :
    (Date.mk y 12 31) < Date.mk y' 1 1 :=
  Date.lt_of_year_lt h

theorem dec31_le_dec31 {y y' : Int} (h : y ≤ y') :
    (Date.mk y 12 31) ≤ Date.mk y' 12 31 := by
  rw [Date.le_iff]
  dsimp only
  omega

/-- There is no valid date strictly between Dec 31 of year `y` and
Jan 1 of year `y + 1`: the two are adjacent calendar days. -/
theorem dec31_lt_iff_jan1_le {y : Int} {d : Date} (hd : d.Valid) :
    (Date.mk y 12 31) < d ↔ (Date.mk (y + 1) 1 1) ≤ d := by
  obtain ⟨dy, dm, dd⟩ := d
  obtain ⟨h1, h2, h3, h4⟩ := hd
  have h31 := daysInMonth_le_31 dy dm
  rw [Date.lt_def, Date.le_iff]
  dsimp only at *
  omega

/-- The calendar day after `d` (the effect of Python
`d + datetime.timedelta(days=1)` on a midnight datetime). -/
def nextDay (d : Date) : Date :=
  if d.day < daysInMonth d.year d.month then Date.mk d.year d.month (d.day + 1)
  else if d.month < 12 then Date.mk d.year (d.month + 1) 1
  else Date.mk (d.year + 1) 1 1

theorem nextDay_valid {d : Date} (hd : d.Valid) : (nextDay d).Valid := by
  obtain ⟨y, m, dy⟩ := d
  obtain ⟨h1, h2, h3, h4⟩ := hd
  unfold nextDay
  dsimp only at *
  split
  · unfold Date.Valid
    dsimp only
    omega
  · split
    · have := daysInMonth_pos y (m + 1) (by omega) (by omega)
      unfold Date.Valid
      dsimp only
      omega
    · exact jan1_valid (y + 1)

theorem lt_nextDay {d : Date} (hd : d.Valid) : d < nextDay d := by
  obtain ⟨y, m, dy⟩ := d
  obtain ⟨h1, h2, h3, h4⟩ := hd
  unfold nextDay
  dsimp only at *
  split
  · rw [Date.lt_def]; dsimp only; omega
  · split
    · rw [Date.lt_def]; dsimp only; omega
    · rw [Date.lt_def]; dsimp only; omega

/-- No valid date lies strictly between a valid date and its `nextDay`. -/
theorem nextDay_le_of_lt {a d : Date} (ha : a.Valid) (hd : d.Valid) (h : a < d) :
    nextDay a ≤ d := by
  obtain ⟨y, m, dy⟩ := a
  obtain ⟨y2, m2, d2⟩ := d
  obtain ⟨h1, h2, h3, h4⟩ := ha
  obtain ⟨g1, g2, g3, g4⟩ := hd
  rw [Date.lt_def] at h
  unfold nextDay
  dsimp only at *
  split
  · rw [Date.le_iff]; dsimp only; omega
  · split
    · rw [Date.le_iff]
      dsimp only
      rcases h with h | ⟨hy, h⟩
      · omega
      · rcases h with h | ⟨hm, h⟩
        · omega
        · subst hy; subst hm; omega
    · rw [Date.le_iff]
      dsimp only
      rcases h with h | ⟨hy, h⟩
      · omega
      · rcases h with h | ⟨hm, h⟩
        · omega
        · subst hy; subst hm; omega

/-- Packing of a valid date into a single integer that is strictly
monotone for the date order; used as a measure for day iteration. -/
def dkey (d : Date) : Int :=
  d.year * 372 + ((d.month : Int) - 1) * 31 + ((d.day : Int) - 1)

theorem dkey_lt_of_lt {a b : Date} (ha : a.Valid) (hb : b.Valid) (h : a < b) :
    dkey a < dkey b := by
  obtain ⟨y, m, dy⟩ := a
  obtain ⟨y2, m2, d2⟩ := b
  obtain ⟨h1, h2, h3, h4⟩ := ha
  obtain ⟨g1, g2, g3, g4⟩ := hb
  have hm31 := daysInMonth_le_31 y m
  have hm31b := daysInMonth_le_31 y2 m2
  rw [Date.lt_def] at h
  unfold dkey
  dsimp only at *
  omega

theorem dkey_le_of_le {a b : Date} (ha : a.Valid) (hb : b.Valid) (h : a ≤ b) :
    dkey a ≤ dkey b := by
  rcases lt_or_eq_of_le h with h | h
  · exact le_of_lt (dkey_lt_of_lt ha hb h)
  · rw [h]

theorem dkey_bounds {d : Date} (hd : d.Valid) :
    d.year * 372 ≤ dkey d ∧ dkey d ≤ d.year * 372 + 371 := by
  obtain ⟨y, m, dy⟩ := d
  obtain ⟨h1, h2, h3, h4⟩ := hd
  have hm31 := daysInMonth_le_31 y m
  unfold dkey
  dsimp only at *
  omega

/-- Day iteration from `s` while not past `e`, with an explicit fuel.
`dateRangeDaily` below supplies fuel that is provably sufficient for all
valid inputs, so the fuel never truncates the output. -/
def dateRangeDailyAux (e : Date) : Nat → Date → List Date
  | 0, _ => []
  | fuel + 1, s => if s ≤ e then s :: dateRangeDailyAux e fuel (nextDay s) else []

/-- All calendar days from `s` to `e` inclusive, the embedding of
`pd.date_range(start=s, end=e, freq='D')` for midnight-aligned bounds. -/
def dateRangeDaily (s e : Date) : List Date :=
  dateRangeDailyAux e ((e.year - s.year + 1) * 372).toNat s

theorem dateRangeDailyAux_sound {e : Date} (he : e.Valid) :
    ∀ (fuel : Nat) (s : Date), s.Valid →
      ∀ d ∈ dateRangeDailyAux e fuel s, d.Valid ∧ s ≤ d ∧ d ≤ e := by
  intro fuel
  induction fuel with
  | zero => intro s _ d hmem; simp [dateRangeDailyAux] at hmem
  | succ n ih =>
    intro s hs d hmem
    unfold dateRangeDailyAux at hmem
    by_cases hse : s ≤ e
    · rw [if_pos hse] at hmem
      rcases List.mem_cons.mp hmem with h | h
      · subst h; exact ⟨hs, le_refl _, hse⟩
      · obtain ⟨hv, hle, hle2⟩ := ih (nextDay s) (nextDay_valid hs) d h
        exact ⟨hv, le_trans (le_of_lt (lt_nextDay hs)) hle, hle2⟩
    · rw [if_neg hse] at hmem
      simp at hmem

theorem dateRangeDailyAux_complete {e : Date} (he : e.Valid) :
    ∀ (fuel : Nat) (s : Date), s.Valid →
      ∀ d : Date, d.Valid → s ≤ d → d ≤ e →
        (dkey d - dkey s).toNat < fuel → d ∈ dateRangeDailyAux e fuel s := by
  intro fuel
  induction fuel with
  | zero => intro s _ d _ _ _ hf; omega
  | succ n ih =>
    intro s hs d hd hsd hde hf
    unfold dateRangeDailyAux
    rw [if_pos (le_trans hsd hde)]
    rcases eq_or_lt_of_le hsd with h | h
    · rw [← h]; exact List.mem_cons_self _ _
    · refine List.mem_cons_of_mem _ (ih (nextDay s) (nextDay_valid hs) d hd
        (nextDay_le_of_lt hs hd h) hde ?_)
      have k1 : dkey s < dkey (nextDay s) := dkey_lt_of_lt hs (nextDay_valid hs) (lt_nextDay hs)
      have k2 : dkey (nextDay s) ≤ dkey d :=
        dkey_le_of_le (nextDay_valid hs) hd (nextDay_le_of_lt hs hd h)
      omega

/-- Membership characterisation of `dateRangeDaily`: for valid bounds it
holds exactly the valid calendar days of the closed interval. -/
theorem dateRangeDaily_mem {s e : Date} (hs : s.Valid) (he : e.Valid) :
    ∀ d : Date, d ∈ dateRangeDaily s e ↔ (d.Valid ∧ s ≤ d ∧ d ≤ e) := by
  intro d
  constructor
  · exact dateRangeDailyAux_sound he _ s hs d
  · rintro ⟨hd, hsd, hde⟩
    refine dateRangeDailyAux_complete he _ s hs d hd hsd hde ?_
    have b1 := dkey_bounds hs
    have b2 := dkey_bounds hd
    have hy : d.year ≤ e.year := Date.year_le_of_le hde
    have hy2 : s.year ≤ d.year := Date.year_le_of_le hsd
    have hk : dkey d ≤ d.year * 372 + 371 := b2.2
    have hk2 : s.year * 372 ≤ dkey s := b1.1
    omega

/-!
## `EikonDownloader.generate_decade_dates`
(src/eikondownloader/download/downloading.py, lines 147-214)

The Python function resolves a start date (lines 177-188), validates
`start_date <= end_date` (lines 190-191), then walks backward from
`end_date.year` in steps of 10 years, appending one `(start_of_decade,
end_of_decade)` window per iteration (lines 193-214).  The two appended
lists are embedded as one list of pairs; `generate_decade_dates` below
returns the two lists exactly as the source does (first components and
second components).  Error-message strings are reproduced without the
surrounding single quotes of the source text.
-/

/-- Python `end_date.replace(year=y)`: keeps month and day, raises
`ValueError` ("day is out of range for month") when the day does not
exist in the target year (Feb 29 to a non-leap year). -/
def datetimeReplaceYear (d : Date) (y : Int) : Except String Date :=
  if d.day ≤ daysInMonth y d.month then .ok (Date.mk y d.month d.day)
  else .error "day is out of range for month"

/-- Start-date resolution of `generate_decade_dates` (downloading.py,
lines 177-188): an explicit `start_date` takes precedence; otherwise
`num_years` yields `end_date.replace(year=end_date.year - num_years)`
followed by `+ timedelta(days=1)` (line 184); otherwise `ValueError`. -/
def resolveStartDate (endDate : Date) (numYears : Option Int)
    (startDate : Option Date) : Except String Date :=
  match startDate with
  | some s => .ok s
  | none =>
    match numYears with
    | some n =>
      match datetimeReplaceYear endDate (endDate.year - n) with
      | .ok r => .ok (nextDay r)
      | .error msg => .error msg
    | none => .error "Either num_years or start_date must be provided."

/-- One iteration of the `while current_year >= start_date.year` loop of
`generate_decade_dates` (downloading.py, lines 196-212), with the fuel
argument counting the remaining loop iterations (the loop performs at
most `(end_year - start_year) / 10 + 1` iterations, which
`decadeWindows` supplies as fuel, so the fuel never cuts the loop
short). -/
def decadeLoopF (s e : Date) : Nat → Int → List (Date × Date)
  | 0, _ => []
  | fuel + 1, y =>
    if s.year ≤ y then
      if (Date.mk y 12 31) < s then []
      else
        ((if (Date.mk (y - 9) 1 1) < s then s else Date.mk (y - 9) 1 1),
         (if e < Date.mk y 12 31 then e else Date.mk y 12 31))
          :: decadeLoopF s e fuel (y - 10)
    else []

/-- The decade windows produced for a resolved pair `(s, e)`:
the loop of `generate_decade_dates` starting at `current_year = e.year`. -/
def decadeWindows (s e : Date) : List (Date × Date) :=
  decadeLoopF s e ((e.year - s.year).toNat / 10 + 1) e.year

/-- `EikonDownloader.generate_decade_dates` (downloading.py, lines
147-214): returns the pair (start_dates, end_dates), most-recent window
first, or the raised `ValueError` message. -/
def generate_decade_dates (endDate : Date) (numYears : Option Int)
    (startDate : Option Date) : Except String (List Date × List Date) :=
  match resolveStartDate endDate numYears startDate with
  | .error msg => .error msg
  | .ok s =>
    if endDate < s then .error "start_date cannot be later than end_date."
    else
      .ok ((decadeWindows s endDate).map Prod.fst,
           (decadeWindows s endDate).map Prod.snd)

/-- The window end produced at loop year `y`: `end_date` clipped to
Dec 31 of year `y` (the running cursor's year). -/
def clipEnd (e : Date) (y : Int) : Date :=
  if e < Date.mk y 12 31 then e else Date.mk y 12 31

/-- Adjacency relation between consecutive windows (most-recent first):
the older window ends strictly before the newer one starts, and no valid
calendar day lies between the two (no gap, no overlap). -/
def AdjacentWindows (p q : Date × Date) : Prop :=
  q.2 < p.1 ∧ ∀ d : Date, d.Valid → (p.1 ≤ d ↔ q.2 < d)

example : decadeWindows (Date.mk 2003 5 17) (Date.mk 2024 6 30) =
    [(Date.mk 2015 1 1, Date.mk 2024 6 30),
     (Date.mk 2005 1 1, Date.mk 2014 12 31),
     (Date.mk 2003 5 17, Date.mk 2004 12 31)] := by decide

example : generate_decade_dates (Date.mk 2024 12 31) (some 10) none =
    .ok ([Date.mk 2015 1 1], [Date.mk 2024 12 31]) := by rfl

theorem decadeLoopF_nil_of_lt (s e : Date) (fuel : Nat) (y : Int) (h : y < s.year) :
    decadeLoopF s e fuel y = [] := by
  cases fuel with
  | zero => rfl
  | succ n =>
    unfold decadeLoopF
    rw [if_neg (by omega)]

theorem clipEnd_eq_self {e : Date} (he : e.Valid) : clipEnd e e.year = e := by
  unfold clipEnd
  split
  · rfl
  · next h => exact le_antisymm (not_lt.mp h) (Date.le_dec31 e he)

theorem clipEnd_eq_dec31 {e : Date} {y : Int} (h : y < e.year) :
    clipEnd e y = Date.mk y 12 31 := by
  unfold clipEnd
  rw [if_neg]
  exact not_lt.mpr (le_of_lt (Date.lt_of_year_lt (by dsimp only; omega)))

theorem clipEnd_valid {e : Date} (he : e.Valid) (y : Int) : (clipEnd e y).Valid := by
  unfold clipEnd
  split
  · exact he
  · exact dec31_valid y

theorem clipEnd_year_le (e : Date) (y : Int) : (clipEnd e y).year ≤ y := by
  unfold clipEnd
  split
  · next h => have := Date.year_le_of_lt h; dsimp only at this; omega
  · dsimp only; omega

theorem le_clipEnd {s e : Date} {y : Int} (hs : s.Valid) (hse : s ≤ e)
    (hsy : s.year ≤ y) : s ≤ clipEnd e y := by
  unfold clipEnd
  split
  · exact hse
  · exact le_trans (Date.le_dec31 s hs) (dec31_le_dec31 hsy)

theorem jan1_le_clipEnd {e : Date} {y : Int} (hy : y ≤ e.year) :
    Date.mk (y - 9) 1 1 ≤ clipEnd e y := by
  unfold clipEnd
  split
  · next h =>
    have := Date.year_le_of_lt h
    dsimp only at this
    exact le_of_lt (Date.lt_of_year_lt (by dsimp only; omega))
  · exact le_of_lt (Date.lt_of_year_lt (by dsimp only; omega))

/-- Loop invariant of `generate_decade_dates`: for a resolved valid pair
`s ≤ e` and a cursor year `y` between `s.year` and `e.year`, the
remaining loop iterations produce windows that are nonempty, start (most
recent first) at `clipEnd e y`, end (oldest) at `s`, stay inside
`[s, clipEnd e y]`, span at most ten calendar years each, are pairwise
adjacent and cover `[s, clipEnd e y]` exactly. -/
theorem decadeLoopF_spec (s e : Date) (hs : s.Valid) (he : e.Valid) (hse : s ≤ e) :
    ∀ (fuel : Nat) (y : Int), (y - s.year).toNat < 10 * fuel →
      s.year ≤ y → y ≤ e.year →
      decadeLoopF s e fuel y ≠ [] ∧
      (decadeLoopF s e fuel y).head?.map Prod.snd = some (clipEnd e y) ∧
      (decadeLoopF s e fuel y).getLast?.map Prod.fst = some s ∧
      (∀ p ∈ decadeLoopF s e fuel y,
        p.1.Valid ∧ p.2.Valid ∧ p.1 ≤ p.2 ∧ s ≤ p.1 ∧
          p.2 ≤ clipEnd e y ∧ p.2.year ≤ p.1.year + 9) ∧
      List.Chain' AdjacentWindows (decadeLoopF s e fuel y) ∧
      (∀ d : Date, d.Valid → ((s ≤ d ∧ d ≤ clipEnd e y) ↔
          ∃ p ∈ decadeLoopF s e fuel y, p.1 ≤ d ∧ d ≤ p.2)) := by
  intro fuel
  induction fuel with
  | zero => intro y hf _ _; omega
  | succ n ih =>
    intro y hf hsy hye
    have hbreak : ¬ (Date.mk y 12 31) < s :=
      not_lt.mpr (le_trans (Date.le_dec31 s hs) (dec31_le_dec31 hsy))
    have hstep : decadeLoopF s e (n + 1) y =
        (if s.year ≤ y then
          if (Date.mk y 12 31) < s then []
          else ((if (Date.mk (y - 9) 1 1) < s then s else Date.mk (y - 9) 1 1),
                clipEnd e y) :: decadeLoopF s e n (y - 10)
        else []) := rfl
    have hL : decadeLoopF s e (n + 1) y =
        ((if (Date.mk (y - 9) 1 1) < s then s else Date.mk (y - 9) 1 1),
          clipEnd e y) :: decadeLoopF s e n (y - 10) := by
      rw [hstep, if_pos hsy, if_neg hbreak]
    by_cases hcase : s.year ≤ y - 10
    · -- another full decade follows below this window
      have hslt : s < Date.mk (y - 9) 1 1 :=
        lt_of_le_of_lt (Date.le_dec31 s hs) (dec31_lt_jan1 (by omega))
      have hstartclip :
          (if (Date.mk (y - 9) 1 1) < s then s else Date.mk (y - 9) 1 1) =
            Date.mk (y - 9) 1 1 := by
        rw [if_neg (not_lt.mpr (le_of_lt hslt))]
      rw [hstartclip] at hL
      obtain ⟨hne, hhead, hlast, hmem, hchain, hcov⟩ :=
        ih (y - 10) (by omega) hcase (by omega)
      have hclip10 : clipEnd e (y - 10) = Date.mk (y - 10) 12 31 :=
        clipEnd_eq_dec31 (by omega)
      rw [hclip10] at hhead hmem hcov
      have hadj : ∀ d : Date, d.Valid →
          ((Date.mk (y - 9) 1 1) ≤ d ↔ (Date.mk (y - 10) 12 31) < d) := by
        intro d hd
        have h10 := @dec31_lt_iff_jan1_le (y - 10) d hd
        have e9 : y - 10 + 1 = y - 9 := by omega
        rw [e9] at h10
        exact h10.symm
      have hj1clip : Date.mk (y - 9) 1 1 ≤ clipEnd e y := jan1_le_clipEnd hye
      rw [hL]
      refine ⟨by simp, by simp, ?_, ?_, ?_, ?_⟩
      · -- oldest window still starts at s
        obtain ⟨r, rs, hr⟩ := List.exists_cons_of_ne_nil hne
        rw [hr, List.getLast?_cons_cons, ← hr]
        exact hlast
      · intro p hp
        rcases List.mem_cons.mp hp with hp | hp
        · subst hp
          refine ⟨jan1_valid _, clipEnd_valid he y, hj1clip,
            le_of_lt hslt, le_refl _, ?_⟩
          have := clipEnd_year_le e y
          dsimp only
          omega
        · obtain ⟨v1, v2, v3, v4, v5, v6⟩ := hmem p hp
          exact ⟨v1, v2, v3, v4,
            le_trans v5 (le_trans (le_of_lt (dec31_lt_jan1 (by omega))) hj1clip), v6⟩
      · rw [List.chain'_cons']
        refine ⟨?_, hchain⟩
        intro q hq
        obtain ⟨q', hq', hq2⟩ := Option.map_eq_some'.mp hhead
        rw [hq'] at hq
        simp only [Option.mem_def, Option.some.injEq] at hq
        subst hq
        constructor
        · rw [hq2]
          exact lt_of_lt_of_le (dec31_lt_jan1 (by omega)) (le_refl _)
        · intro d hd
          rw [hq2]
          exact hadj d hd
      · intro d hd
        constructor
        · rintro ⟨hsd, hdc⟩
          by_cases hcc : d ≤ Date.mk (y - 10) 12 31
          · obtain ⟨p, hp, h1, h2⟩ := (hcov d hd).mp ⟨hsd, hcc⟩
            exact ⟨p, List.mem_cons_of_mem _ hp, h1, h2⟩
          · exact ⟨_, List.mem_cons_self _ _,
              (hadj d hd).mpr (not_le.mp hcc), hdc⟩
        · rintro ⟨p, hp, h1, h2⟩
          rcases List.mem_cons.mp hp with hp | hp
          · subst hp
            exact ⟨le_trans (le_of_lt hslt) h1, h2⟩
          · obtain ⟨hsd, hdd⟩ := (hcov d hd).mpr ⟨p, hp, h1, h2⟩
            exact ⟨hsd, le_trans hdd
              (le_trans (le_of_lt (dec31_lt_jan1 (by omega))) hj1clip)⟩
    · -- this is the last window: its start is clipped to s
      have hrest : decadeLoopF s e n (y - 10) = [] :=
        decadeLoopF_nil_of_lt s e n (y - 10) (by omega)
      have hstart :
          (if (Date.mk (y - 9) 1 1) < s then s else Date.mk (y - 9) 1 1) = s := by
        split
        · rfl
        · next h =>
          refine le_antisymm ?_ (not_lt.mp h)
          rcases lt_or_eq_of_le (show y - 9 ≤ s.year by omega) with h' | h'
          · exact le_of_lt (Date.lt_of_year_lt (by dsimp only; omega))
          · have := Date.jan1_le s hs
            rw [← h'] at this
            exact this
      rw [hstart, hrest] at hL
      rw [hL]
      have hsclip : s ≤ clipEnd e y := le_clipEnd hs hse hsy
      refine ⟨by simp, by simp, by simp, ?_, ?_, ?_⟩
      · intro p hp
        rcases List.mem_cons.mp hp with hp | hp
        · subst hp
          refine ⟨hs, clipEnd_valid he y, hsclip, le_refl _, le_refl _, ?_⟩
          have := clipEnd_year_le e y
          dsimp only
          omega
        · simp at hp
      · simp [List.chain'_singleton]
      · intro d hd
        simp only [List.mem_singleton]
        constructor
        · rintro ⟨h1, h2⟩
          exact ⟨_, rfl, h1, h2⟩
        · rintro ⟨p, rfl, h1, h2⟩
          exact ⟨h1, h2⟩

/-- C1: for every valid resolved pair `start_date <= end_date`,
`generate_decade_dates` returns an ordered sequence of
(sub_start, sub_end) windows, most-recent first, that is nonempty, whose
first window ends at `end_date` and whose last window starts at
`start_date`, whose windows lie inside `[start_date, end_date]` (each
lower bound clipped to not precede `start_date`) and span at most ten
calendar years, which are contiguous and non-overlapping (consecutive
windows are separated by exactly one calendar-day step, with no valid
date in between), and which cover exactly `[start_date, end_date]`. -/
theorem generate_decade_dates_partition (s e : Date)
    (hs : s.Valid) (he : e.Valid) (hse : s ≤ e) :
    generate_decade_dates e none (some s) =
      .ok ((decadeWindows s e).map Prod.fst, (decadeWindows s e).map Prod.snd) ∧
    decadeWindows s e ≠ [] ∧
    (decadeWindows s e).head?.map Prod.snd = some e ∧
    (decadeWindows s e).getLast?.map Prod.fst = some s ∧
    (∀ p ∈ decadeWindows s e,
      p.1 ≤ p.2 ∧ s ≤ p.1 ∧ p.2 ≤ e ∧ p.2.year ≤ p.1.year + 9) ∧
    List.Chain' AdjacentWindows (decadeWindows s e) ∧
    (∀ d : Date, d.Valid →
      ((s ≤ d ∧ d ≤ e) ↔ ∃ p ∈ decadeWindows s e, p.1 ≤ d ∧ d ≤ p.2)) := by
  have hsy : s.year ≤ e.year := Date.year_le_of_le hse
  have hspec := decadeLoopF_spec s e hs he hse
    ((e.year - s.year).toNat / 10 + 1) e.year (by omega) hsy (le_refl _)
  have hw : decadeWindows s e =
      decadeLoopF s e ((e.year - s.year).toNat / 10 + 1) e.year := rfl
  rw [← hw, clipEnd_eq_self he] at hspec
  obtain ⟨hne, hhead, hlast, hmem, hchain, hcov⟩ := hspec
  refine ⟨?_, hne, hhead, hlast, ?_, hchain, hcov⟩
  · unfold generate_decade_dates resolveStartDate
    dsimp only
    rw [if_neg (not_lt.mpr hse)]
  · intro p hp
    obtain ⟨_, _, v3, v4, v5, v6⟩ := hmem p hp
    exact ⟨v3, v4, v5, v6⟩

theorem generate_decade_dates_partition_witness :
    (Date.mk 2003 5 17).Valid ∧ (Date.mk 2024 6 30).Valid ∧
    (Date.mk 2003 5 17) ≤ (Date.mk 2024 6 30) ∧
    (generate_decade_dates (Date.mk 2024 6 30) none (some (Date.mk 2003 5 17)) =
      .ok ((decadeWindows (Date.mk 2003 5 17) (Date.mk 2024 6 30)).map Prod.fst,
           (decadeWindows (Date.mk 2003 5 17) (Date.mk 2024 6 30)).map Prod.snd) ∧
    decadeWindows (Date.mk 2003 5 17) (Date.mk 2024 6 30) ≠ [] ∧
    (decadeWindows (Date.mk 2003 5 17) (Date.mk 2024 6 30)).head?.map Prod.snd =
      some (Date.mk 2024 6 30) ∧
    (decadeWindows (Date.mk 2003 5 17) (Date.mk 2024 6 30)).getLast?.map Prod.fst =
      some (Date.mk 2003 5 17) ∧
    (∀ p ∈ decadeWindows (Date.mk 2003 5 17) (Date.mk 2024 6 30),
      p.1 ≤ p.2 ∧ (Date.mk 2003 5 17) ≤ p.1 ∧ p.2 ≤ (Date.mk 2024 6 30) ∧
        p.2.year ≤ p.1.year + 9) ∧
    List.Chain' AdjacentWindows (decadeWindows (Date.mk 2003 5 17) (Date.mk 2024 6 30)) ∧
    (∀ d : Date, d.Valid →
      (((Date.mk 2003 5 17) ≤ d ∧ d ≤ (Date.mk 2024 6 30)) ↔
        ∃ p ∈ decadeWindows (Date.mk 2003 5 17) (Date.mk 2024 6 30),
          p.1 ≤ d ∧ d ≤ p.2))) :=
  ⟨by decide, by decide, by decide,
    generate_decade_dates_partition (Date.mk 2003 5 17) (Date.mk 2024 6 30)
      (by decide) (by decide) (by decide)⟩

/-- C6 counterexample: the claim states that with `num_years` and no
`start_date` the resolved start equals `end_date` with its year reduced
by `num_years`.  For `end_date = 2024-12-31` and `num_years = 10` the
source (downloading.py line 184 adds `timedelta(days=1)` after the
`replace`) resolves 2015-01-01, not 2014-12-31. -/
theorem resolveStartDate_plus_one_day :
    resolveStartDate (Date.mk 2024 12 31) (some 10) none = .ok (Date.mk 2015 1 1) ∧
    (Date.mk 2015 1 1) ≠ Date.mk 2014 12 31 := by
  constructor
  · rfl
  · decide

/-- C6 (amended): an explicit `start_date` takes precedence over
`num_years`; with only `num_years`, the resolved start date is
`end_date` with its year reduced by `num_years` **plus one calendar
day** (provided the reduced date exists, i.e. the day is in range for
the target month); with neither argument the function fails with a
`ValueError`. -/
theorem resolveStartDate_spec (e : Date) (n : Int) (s : Date) (ny : Option Int) :
    resolveStartDate e ny (some s) = .ok s ∧
    (e.day ≤ daysInMonth (e.year - n) e.month →
      resolveStartDate e (some n) none = .ok (nextDay (Date.mk (e.year - n) e.month e.day))) ∧
    resolveStartDate e none none =
      .error "Either num_years or start_date must be provided." := by
    refine ⟨rfl, ?_, rfl⟩
    intro h
    unfold resolveStartDate datetimeReplaceYear
    dsimp only
    rw [if_pos h]

theorem resolveStartDate_spec_witness :
    resolveStartDate (Date.mk 2024 12 31) (some 7) (some (Date.mk 2020 2 29)) =
      .ok (Date.mk 2020 2 29) ∧
    ((Date.mk 2024 12 31).day ≤ daysInMonth ((Date.mk 2024 12 31).year - 10)
        (Date.mk 2024 12 31).month ∧
      resolveStartDate (Date.mk 2024 12 31) (some 10) none =
        .ok (nextDay (Date.mk ((Date.mk 2024 12 31).year - 10)
          (Date.mk 2024 12 31).month (Date.mk 2024 12 31).day))) ∧
    resolveStartDate (Date.mk 2024 12 31) none none =
      .error "Either num_years or start_date must be provided." :=
  ⟨(resolveStartDate_spec (Date.mk 2024 12 31) 10 (Date.mk 2020 2 29) (some 7)).1,
   ⟨by decide,
    (resolveStartDate_spec (Date.mk 2024 12 31) 10 (Date.mk 2020 2 29) (some 7)).2.1
      (by decide)⟩,
   (resolveStartDate_spec (Date.mk 2024 12 31) 10 (Date.mk 2020 2 29) (some 7)).2.2⟩

/-!
## `EikonDownloader.generate_target_dates`
(src/eikondownloader/download/downloading.py, lines 85-145)

The source validates `0 < num_years < 100`, looks the (lower-cased)
frequency up in a map accepting the six spellings
months/quarters/years/m/q/y, computes `periods = num_years * {12,4,1}`,
and calls `pd.date_range(end=end_date, periods=periods, freq=...)` with
the anchored pandas offsets M / Q / Y (month-, quarter- and year-end).
`pd.date_range` with an anchored offset produces `periods` consecutive
anchor dates, the last being the most recent anchor on or before
`end_date` (pandas rolls a non-anchored end back).  The anchors of
M / Q / Y are the ends of every month, of months 3, 6, 9, 12, and of
month 12.  We embed months by their integer code `year * 12 + (month-1)`
and the anchored range as a map over `List.range periods`.
-/

/-- The month-end date of the month with code `t` (`t = y*12 + (m-1)`). -/
def monthEndOfCode (t : Int) : Date :=
  Date.mk (t / 12) ((t % 12).toNat + 1)
    (daysInMonth (t / 12) ((t % 12).toNat + 1))

/-- The integer code of a date's month. -/
def monthCode (d : Date) : Int := d.year * 12 + ((d.month : Int) - 1)

/-- Code of the most recent month whose month-end is on or before `d`:
`d`'s own month if `d` is its month-end, else the previous month. -/
def lastMonthEndCode (d : Date) : Int :=
  if d.day = daysInMonth d.year d.month then monthCode d else monthCode d - 1

/-- Code of the most recent `k`-anchored month-end on or before `d`
(anchored months are those with `(code + 1) % k = 0`; for
`k ∈ {1, 3, 12}` these are all months, quarters, and Decembers). -/
def lastAnchorCode (k : Nat) (d : Date) : Int :=
  lastMonthEndCode d - (lastMonthEndCode d + 1) % (k : Int)

/-- `pd.date_range(end=e, periods=periods, freq=<anchored offset>)`:
`periods` anchor dates stepping back `k` months from the last anchor on
or before `e`, in increasing order (as pandas returns them). -/
def dateRangeAnchored (e : Date) (periods : Nat) (k : Nat) : List Date :=
  (List.range periods).map
    (fun i => monthEndOfCode (lastAnchorCode k e - ((periods - 1 - i) * k : Nat)))

/-- Python `str.lower()` on one character, for the ASCII range (the
frequency strings of `generate_target_dates` are ASCII). -/
def lowerChar (c : Char) : Char :=
  if 'A' ≤ c ∧ c ≤ 'Z' then Char.ofNat (c.toNat + 32) else c

/-- Python `str.lower()` for ASCII strings. -/
def strLower (s : String) : String := String.mk (s.data.map lowerChar)

/-- The frequency map of `generate_target_dates` (downloading.py lines
106-113 and 127-131), returning (periods multiplier, month step). -/
def freqInfo (f : String) : Option (Nat × Nat) :=
  if f = "months" ∨ f = "m" then some (12, 1)
  else if f = "quarters" ∨ f = "q" then some (4, 3)
  else if f = "years" ∨ f = "y" then some (1, 12)
  else none

/-- `EikonDownloader.generate_target_dates` (downloading.py, lines
85-145): validates the year count and frequency, generates the anchored
date range and reverses it (most recent first) unless `reverse=False`.
Error-message strings are reproduced without the single quotes. -/
def generate_target_dates (endDate : Date) (numYears : Int)
    (frequency : String) (reverse : Bool) : Except String (List Date) :=
  if numYears ≤ 0 ∨ 100 ≤ numYears then
    .error "Invalid number of years! Choose a value in (0, 100)."
  else
    match freqInfo (strLower frequency) with
    | none => .error "Invalid frequency! Choose from: months (m), quarters (q), years (y)."
    | some (mult, k) =>
      let dates := dateRangeAnchored endDate (numYears.toNat * mult) k
      .ok (if reverse then dates.reverse else dates)

example : generate_target_dates (Date.mk 2024 12 31) 2 "quarters" true =
    .ok [Date.mk 2024 12 31, Date.mk 2024 9 30, Date.mk 2024 6 30,
         Date.mk 2024 3 31, Date.mk 2023 12 31, Date.mk 2023 9 30,
         Date.mk 2023 6 30, Date.mk 2023 3 31] := by rfl

example : generate_target_dates (Date.mk 2024 12 31) 1 "Years" false =
    .ok [Date.mk 2024 12 31] := by rfl

example : generate_target_dates (Date.mk 2024 12 15) 1 "years" true =
    .ok [Date.mk 2023 12 31] := by rfl

example : generate_target_dates (Date.mk 2024 6 15) 3 "m" false =
    .ok [Date.mk 2021 6 30, Date.mk 2021 7 31, Date.mk 2021 8 31,
         Date.mk 2021 9 30, Date.mk 2021 10 31, Date.mk 2021 11 30,
         Date.mk 2021 12 31, Date.mk 2022 1 31, Date.mk 2022 2 28,
         Date.mk 2022 3 31, Date.mk 2022 4 30, Date.mk 2022 5 31,
         Date.mk 2022 6 30, Date.mk 2022 7 31, Date.mk 2022 8 31,
         Date.mk 2022 9 30, Date.mk 2022 10 31, Date.mk 2022 11 30,
         Date.mk 2022 12 31, Date.mk 2023 1 31, Date.mk 2023 2 28,
         Date.mk 2023 3 31, Date.mk 2023 4 30, Date.mk 2023 5 31,
         Date.mk 2023 6 30, Date.mk 2023 7 31, Date.mk 2023 8 31,
         Date.mk 2023 9 30, Date.mk 2023 10 31, Date.mk 2023 11 30,
         Date.mk 2023 12 31, Date.mk 2024 1 31, Date.mk 2024 2 29,
         Date.mk 2024 3 31, Date.mk 2024 4 30, Date.mk 2024 5 31] := by rfl

theorem monthEndOfCode_lt {t t' : Int} (h : t < t') :
    monthEndOfCode t < monthEndOfCode t' := by
  rw [Date.lt_def]
  unfold monthEndOfCode
  dsimp only
  omega

theorem monthEndOfCode_le {t t' : Int} (h : t ≤ t') :
    monthEndOfCode t ≤ monthEndOfCode t' := by
  rcases lt_or_eq_of_le h with h | h
  · exact le_of_lt (monthEndOfCode_lt h)
  · rw [h]

/-- The code-to-date round trip: the month-end of a date's own month. -/
theorem monthEndOfCode_monthCode {d : Date} (h1 : 1 ≤ d.month) (h2 : d.month ≤ 12) :
    monthEndOfCode (monthCode d) = Date.mk d.year d.month (daysInMonth d.year d.month) := by
  obtain ⟨y, m, dd⟩ := d
  unfold monthEndOfCode monthCode
  dsimp only at *
  have hdiv : (y * 12 + ((m : Int) - 1)) / 12 = y := by omega
  have hmod : ((y * 12 + ((m : Int) - 1)) % 12).toNat + 1 = m := by omega
  rw [hdiv, hmod]

theorem monthEndOfCode_lt_of_code_lt {t : Int} {e : Date}
    (h1 : 1 ≤ e.month) (h2 : e.month ≤ 12) (h : t < monthCode e) :
    monthEndOfCode t < e := by
  obtain ⟨y, m, dd⟩ := e
  rw [Date.lt_def]
  unfold monthEndOfCode
  unfold monthCode at h
  dsimp only at *
  omega

theorem lastMonthEndCode_le {e : Date} (he : e.Valid) :
    monthEndOfCode (lastMonthEndCode e) ≤ e := by
  unfold lastMonthEndCode
  split
  · next h =>
    rw [monthEndOfCode_monthCode he.1 he.2.1]
    rw [Date.le_iff]
    dsimp only
    omega
  · exact le_of_lt (monthEndOfCode_lt_of_code_lt he.1 he.2.1 (by omega))

theorem lastAnchorCode_le {k : Nat} (hk : 0 < k) (e : Date) :
    lastAnchorCode k e ≤ lastMonthEndCode e := by
  unfold lastAnchorCode
  have hk' : (0 : Int) < (k : Int) := by exact_mod_cast hk
  have := Int.emod_nonneg (lastMonthEndCode e + 1) (by omega : (k : Int) ≠ 0)
  omega

theorem anchorDate_le {k : Nat} (hk : 0 < k) {e : Date} (he : e.Valid) :
    monthEndOfCode (lastAnchorCode k e) ≤ e :=
  le_trans (monthEndOfCode_le (lastAnchorCode_le hk e)) (lastMonthEndCode_le he)

theorem lastAnchor_of_anchored {k : Nat} {e : Date} (he : e.Valid)
    (hday : e.day = daysInMonth e.year e.month)
    (hmod : (monthCode e + 1) % (k : Int) = 0) :
    monthEndOfCode (lastAnchorCode k e) = e := by
  unfold lastAnchorCode lastMonthEndCode
  rw [if_pos hday, hmod, sub_zero, monthEndOfCode_monthCode he.1 he.2.1, ← hday]

/-- `lastAnchorCode` really is the most recent anchor: any valid
`k`-anchored month-end on or before `e` is at most the anchor date. -/
theorem anchor_maximal {k : Nat} (hk : 0 < k) {e d : Date}
    (he : e.Valid) (hd : d.Valid)
    (hday : d.day = daysInMonth d.year d.month)
    (hmod : (monthCode d + 1) % (k : Int) = 0)
    (hde : d ≤ e) : d ≤ monthEndOfCode (lastAnchorCode k e) := by
  have hk' : (0 : Int) < (k : Int) := by exact_mod_cast hk
  have hroundd : monthEndOfCode (monthCode d) = d := by
    rw [monthEndOfCode_monthCode hd.1 hd.2.1, ← hday]
  have hrounde : monthEndOfCode (monthCode e) =
      Date.mk e.year e.month (daysInMonth e.year e.month) :=
    monthEndOfCode_monthCode he.1 he.2.1
  have heme : e ≤ monthEndOfCode (monthCode e) := by
    rw [hrounde, Date.le_iff]
    dsimp only
    have := he.2.2.2
    omega
  -- the anchored month of d is on or before the last month-end of e
  have hcle : monthCode d ≤ lastMonthEndCode e := by
    by_contra hgt
    push_neg at hgt
    unfold lastMonthEndCode at hgt
    split at hgt
    · have : e < d := by
        calc e ≤ monthEndOfCode (monthCode e) := heme
          _ < monthEndOfCode (monthCode d) := monthEndOfCode_lt hgt
          _ = d := hroundd
      exact absurd hde (not_le.mpr this)
    · next hne =>
      rcases lt_or_eq_of_le (show monthCode e ≤ monthCode d by omega) with hlt | heq
      · have : e < d := by
          calc e ≤ monthEndOfCode (monthCode e) := heme
            _ < monthEndOfCode (monthCode d) := monthEndOfCode_lt hlt
            _ = d := hroundd
        exact absurd hde (not_le.mpr this)
      · -- same month: d is its month-end but e is not, so e < d
        have hym : e.year = d.year ∧ e.month = d.month := by
          obtain ⟨y1, m1, d1⟩ := e; obtain ⟨y2, m2, d2⟩ := d
          unfold monthCode at heq
          have u1 := he.1; have u2 := he.2.1
          have v1 := hd.1; have v2 := hd.2.1
          dsimp only at *
          constructor <;> omega
        have : e < d := by
          rw [Date.lt_def]
          have h5 := he.2.2.2
          have h6 := hne
          have h7 := hday
          rw [hym.1, hym.2] at h5 h6
          right
          exact ⟨hym.1, Or.inr ⟨hym.2, by omega⟩⟩
        exact absurd hde (not_le.mpr this)
  -- among anchored codes at most lastMonthEndCode, lastAnchorCode is largest
  have h2 : monthCode d ≤ lastAnchorCode k e := by
    unfold lastAnchorCode
    have hr0 : 0 ≤ (lastMonthEndCode e + 1) % (k : Int) :=
      Int.emod_nonneg _ (by omega)
    have hrk : (lastMonthEndCode e + 1) % (k : Int) < k :=
      Int.emod_lt_of_pos _ hk'
    have hdvd1 : (k : Int) ∣ (monthCode d + 1) := Int.dvd_of_emod_eq_zero hmod
    have hdvd2 : (k : Int) ∣
        (lastMonthEndCode e + 1 - (lastMonthEndCode e + 1) % (k : Int)) := by
      have := Int.ediv_add_emod (lastMonthEndCode e + 1) k
      exact ⟨(lastMonthEndCode e + 1) / (k : Int), by omega⟩
    by_contra hgt
    push_neg at hgt
    have hpos : 0 < (monthCode d + 1) -
        (lastMonthEndCode e + 1 - (lastMonthEndCode e + 1) % (k : Int)) := by omega
    have hge : (k : Int) ≤ (monthCode d + 1) -
        (lastMonthEndCode e + 1 - (lastMonthEndCode e + 1) % (k : Int)) :=
      Int.le_of_dvd hpos (dvd_sub hdvd1 hdvd2)
    omega
  calc d = monthEndOfCode (monthCode d) := hroundd.symm
    _ ≤ monthEndOfCode (lastAnchorCode k e) := monthEndOfCode_le h2

theorem dateRangeAnchored_length (e : Date) (p k : Nat) :
    (dateRangeAnchored e p k).length = p := by
  simp [dateRangeAnchored]

theorem dateRangeAnchored_pairwise (e : Date) (p k : Nat) (hk : 0 < k) :
    (dateRangeAnchored e p k).Pairwise (· < ·) := by
  unfold dateRangeAnchored
  rw [List.pairwise_map]
  refine List.Pairwise.imp_of_mem ?_ (List.pairwise_lt_range p)
  intro a b ha hb hab
  apply monthEndOfCode_lt
  have ha' := List.mem_range.mp ha
  have hb' := List.mem_range.mp hb
  have hsub : p - 1 - b < p - 1 - a := by omega
  have hmul : (p - 1 - b) * k < (p - 1 - a) * k :=
    mul_lt_mul_of_pos_right hsub hk
  omega

theorem dateRangeAnchored_getLast (e : Date) (k : Nat) {p : Nat} (hp : 0 < p) :
    (dateRangeAnchored e p k).getLast? =
      some (monthEndOfCode (lastAnchorCode k e)) := by
  obtain ⟨n, rfl⟩ : ∃ n, p = n + 1 := ⟨p - 1, by omega⟩
  unfold dateRangeAnchored
  rw [List.range_succ, List.map_append, List.map_singleton, List.getLast?_concat]
  have h0 : n + 1 - 1 - n = 0 := by omega
  rw [h0]
  norm_num

theorem freqInfo_pos {f : String} {mult k : Nat}
    (h : freqInfo f = some (mult, k)) : 0 < mult ∧ 0 < k := by
  unfold freqInfo at h
  split_ifs at h <;> simp_all <;> omega

/-- C7 counterexample: the claim quantifies over "every positive year
count" and says the sequence "terminates at end_date".  (a) At
`num_years = 100` the source raises `ValueError` instead of returning
100 dates (downloading.py lines 115-118).  (b) For the non-anchored
`end_date = 2024-12-15` with frequency `years`, the single returned date
is 2023-12-31, not `end_date` (pandas rolls the end back to the previous
year-end anchor). -/
theorem generate_target_dates_counterexample :
    generate_target_dates (Date.mk 2024 12 31) 100 "years" true =
      .error "Invalid number of years! Choose a value in (0, 100)." ∧
    generate_target_dates (Date.mk 2024 12 15) 1 "years" true =
      .ok [Date.mk 2023 12 31] ∧
    (Date.mk 2023 12 31) ≠ Date.mk 2024 12 15 :=
  ⟨rfl, rfl, by decide⟩

/-- C7 (amended): for every valid `end_date`, every year count in the
accepted range `0 < num_years < 100` and every recognised frequency
(months/quarters/years, long or short spelling, case-insensitive),
`generate_target_dates` returns exactly `num_years * {12, 4, 1}` dates;
they are strictly increasing when not reversed and strictly decreasing
when reversed; the sequence terminates at the most recent
frequency-anchored month-end on or before `end_date` (at most
`end_date`, maximal among anchored month-ends `<= end_date`, and equal
to `end_date` exactly when `end_date` is itself an anchored month-end).
In particular `end_date = 2024-12-31`, `num_years = 2`,
frequency `quarters`, reversed, yields the 8 quarter-end dates from
2024-12-31 down to 2023-03-31. -/
theorem generate_target_dates_spec (e : Date) (n : Int) (frequency : String)
    (mult k : Nat) (rev : Bool) (he : e.Valid) (hn : 0 < n) (hn2 : n < 100)
    (hf : freqInfo (strLower frequency) = some (mult, k)) :
    (∃ l, generate_target_dates e n frequency rev = .ok l ∧
      l.length = n.toNat * mult ∧
      (rev = false → l.Pairwise (· < ·)) ∧
      (rev = true → l.Pairwise (fun a b => b < a)) ∧
      (rev = false → l.getLast? = some (monthEndOfCode (lastAnchorCode k e))) ∧
      (rev = true → l.head? = some (monthEndOfCode (lastAnchorCode k e))) ∧
      monthEndOfCode (lastAnchorCode k e) ≤ e ∧
      (∀ d : Date, d.Valid → d.day = daysInMonth d.year d.month →
        (monthCode d + 1) % (k : Int) = 0 → d ≤ e →
          d ≤ monthEndOfCode (lastAnchorCode k e)) ∧
      ((e.day = daysInMonth e.year e.month ∧ (monthCode e + 1) % (k : Int) = 0) →
        monthEndOfCode (lastAnchorCode k e) = e)) ∧
    generate_target_dates (Date.mk 2024 12 31) 2 "quarters" true =
      .ok [Date.mk 2024 12 31, Date.mk 2024 9 30, Date.mk 2024 6 30,
           Date.mk 2024 3 31, Date.mk 2023 12 31, Date.mk 2023 9 30,
           Date.mk 2023 6 30, Date.mk 2023 3 31] := by
  obtain ⟨hm, hk⟩ := freqInfo_pos hf
  have hp : 0 < n.toNat * mult := Nat.mul_pos (by omega) hm
  constructor
  · cases rev with
    | false =>
      refine ⟨dateRangeAnchored e (n.toNat * mult) k, ?_, ?_, ?_, ?_, ?_, ?_,
        anchorDate_le hk he,
        fun d hd h1 h2 h3 => anchor_maximal hk he hd h1 h2 h3,
        fun h => lastAnchor_of_anchored he h.1 h.2⟩
      · unfold generate_target_dates
        rw [if_neg (by omega), hf]
        rfl
      · simp [dateRangeAnchored_length]
      · intro _
        exact dateRangeAnchored_pairwise e _ k hk
      · intro h
        exact absurd h (by decide)
      · intro _
        exact dateRangeAnchored_getLast e k hp
      · intro h
        exact absurd h (by decide)
    | true =>
      refine ⟨(dateRangeAnchored e (n.toNat * mult) k).reverse, ?_, ?_, ?_, ?_, ?_, ?_,
        anchorDate_le hk he,
        fun d hd h1 h2 h3 => anchor_maximal hk he hd h1 h2 h3,
        fun h => lastAnchor_of_anchored he h.1 h.2⟩
      · unfold generate_target_dates
        rw [if_neg (by omega), hf]
        rfl
      · simp [dateRangeAnchored_length]
      · intro h
        exact absurd h (by decide)
      · intro _
        rw [List.pairwise_reverse]
        exact dateRangeAnchored_pairwise e _ k hk
      · intro h
        exact absurd h (by decide)
      · intro _
        rw [List.head?_reverse]
        exact dateRangeAnchored_getLast e k hp
  · rfl

theorem generate_target_dates_spec_witness :
    (Date.mk 2024 12 31).Valid ∧ (0 : Int) < 2 ∧ (2 : Int) < 100 ∧
    freqInfo (strLower "quarters") = some (4, 3) ∧
    ((∃ l, generate_target_dates (Date.mk 2024 12 31) 2 "quarters" true = .ok l ∧
      l.length = (2 : Int).toNat * 4 ∧
      (true = false → l.Pairwise (· < ·)) ∧
      (true = true → l.Pairwise (fun a b => b < a)) ∧
      (true = false → l.getLast? =
        some (monthEndOfCode (lastAnchorCode 3 (Date.mk 2024 12 31)))) ∧
      (true = true → l.head? =
        some (monthEndOfCode (lastAnchorCode 3 (Date.mk 2024 12 31)))) ∧
      monthEndOfCode (lastAnchorCode 3 (Date.mk 2024 12 31)) ≤ Date.mk 2024 12 31 ∧
      (∀ d : Date, d.Valid → d.day = daysInMonth d.year d.month →
        (monthCode d + 1) % ((3 : Nat) : Int) = 0 → d ≤ Date.mk 2024 12 31 →
          d ≤ monthEndOfCode (lastAnchorCode 3 (Date.mk 2024 12 31))) ∧
      (((Date.mk 2024 12 31).day =
          daysInMonth (Date.mk 2024 12 31).year (Date.mk 2024 12 31).month ∧
        (monthCode (Date.mk 2024 12 31) + 1) % ((3 : Nat) : Int) = 0) →
        monthEndOfCode (lastAnchorCode 3 (Date.mk 2024 12 31)) = Date.mk 2024 12 31)) ∧
    generate_target_dates (Date.mk 2024 12 31) 2 "quarters" true =
      .ok [Date.mk 2024 12 31, Date.mk 2024 9 30, Date.mk 2024 6 30,
           Date.mk 2024 3 31, Date.mk 2023 12 31, Date.mk 2023 9 30,
           Date.mk 2023 6 30, Date.mk 2023 3 31]) :=
  ⟨by decide, by decide, by decide, rfl,
    generate_target_dates_spec (Date.mk 2024 12 31) 2 "quarters" 4 3 true
      (by decide) (by decide) (by decide) rfl⟩

/-!
## DataFrames and `EikonDownloader.get_index_chain`
(src/eikondownloader/download/downloading.py, lines 216-336 and 886-913)

A pandas DataFrame is embedded as a column list plus a row list of cell
lists.  `np.nan` is `Cell.nan` (the only float whose value matters in
the modelled code).  The remote `ek.get_data` calls are the explicit
argument `att : Nat → ChainAttempt`, giving the outcome of each
successive call: a returned value, a raised `ek.EikonError` with its
code, or another raised exception.
-/

/-- A scalar cell of an embedded DataFrame. -/
inductive Cell
  | nan
  | str (s : String)
  | num (n : Int)
deriving DecidableEq, Repr

/-- An embedded pandas DataFrame: column names and rows. -/
structure DataFrame where
  columns : List String
  data : List (List Cell)
deriving DecidableEq, Repr

/-- pandas `DataFrame.empty`: true iff an axis has length 0. -/
def DataFrame.isEmpty (df : DataFrame) : Bool :=
  df.data.isEmpty || df.columns.isEmpty

/-- `EikonDownloader._empty_df_chain` (downloading.py lines 886-913):
`pd.DataFrame(columns=[ric], data=[[np.nan]])` — one row, one column
keyed by the RIC; raises `ValueError` for an empty RIC string (the
`TypeError`/`None` guards are excluded by the typed embedding).
The message is reproduced without quotes. -/
def emptyDfChain (ric : String) : Except String DataFrame :=
  if ric = "" then .error "RIC cannot be an empty string."
  else .ok (DataFrame.mk [ric] [[Cell.nan]])

/-- Outcome of one `ek.get_data` call inside `get_index_chain`: a
returned value (`none` models a non-DataFrame result; the error half of
the returned pair is ignored by this method), a raised `ek.EikonError`
with its code, or another raised exception. -/
inductive ChainAttempt
  | ret (df : Option DataFrame)
  | eikonErr (code : Int)
  | exc (msg : String)

/-- The attempt outcomes on which `get_index_chain`'s loop sleeps and
retries (incrementing `retry_count`): an empty or non-DataFrame result,
an `EikonError` with a code other than -1 (codes 401, 429, 500, 2504
and the default branch all retry after their tier's delay), or an
unexpected exception. -/
def ChainAttempt.continuesLoop : ChainAttempt → Bool
  | .ret none => true
  | .ret (some df) => df.isEmpty
  | .eikonErr c => c != -1
  | .exc _ => true

/-- `if isinstance(pre_fix, str): index_ric = pre_fix + index_ric`. -/
def applyPre (pre : Option String) (ric : String) : String :=
  match pre with
  | some p => p ++ ric
  | none => ric

/-- The `while retry_count < max_retries` loop of `get_index_chain`
(downloading.py lines 257-336): `att n` is the outcome of the call made
with `retry_count = n` (each non-returning iteration makes exactly one
call and increments the counter).  The second argument is the fuel
`max_retries - retry_count`, making the recursion structural; when it
reaches zero the loop exits and returns the placeholder with
"Max retries exceeded.". -/
def chainLoopF (ric : String) (att : Nat → ChainAttempt) :
    Nat → Nat → Except String (DataFrame × Option String)
  | _, 0 => (emptyDfChain ric).map (fun df => (df, some "Max retries exceeded."))
  | retryCount, fuel + 1 =>
    match att retryCount with
    | .ret (some df) =>
      if ¬ df.isEmpty then .ok (df, none)
      else chainLoopF ric att (retryCount + 1) fuel
    | .ret none => chainLoopF ric att (retryCount + 1) fuel
    | .eikonErr c =>
      if c = -1 then
        (emptyDfChain ric).map (fun df => (df, some ("Error: " ++ toString c)))
      else chainLoopF ric att (retryCount + 1) fuel
    | .exc _ => chainLoopF ric att (retryCount + 1) fuel

/-- `EikonDownloader.get_index_chain` (downloading.py lines 216-336):
applies the prefix (default "0#.") and runs the retry loop from
`retry_count = 0` with budget `max_retries`. -/
def getIndexChain (ric : String) (pre : Option String)
    (att : Nat → ChainAttempt) (maxRetries : Nat) :
    Except String (DataFrame × Option String) :=
  chainLoopF (applyPre pre ric) att 0 maxRetries

theorem chainLoopF_continue (ric : String) (att : Nat → ChainAttempt)
    (r fuel : Nat) (h : (att r).continuesLoop = true) :
    chainLoopF ric att r (fuel + 1) = chainLoopF ric att (r + 1) fuel := by
  have hstep : chainLoopF ric att r (fuel + 1) =
      (match att r with
        | .ret (some df) =>
          if ¬ df.isEmpty then .ok (df, none)
          else chainLoopF ric att (r + 1) fuel
        | .ret none => chainLoopF ric att (r + 1) fuel
        | .eikonErr c =>
          if c = -1 then
            (emptyDfChain ric).map (fun df => (df, some ("Error: " ++ toString c)))
          else chainLoopF ric att (r + 1) fuel
        | .exc _ => chainLoopF ric att (r + 1) fuel) := rfl
  rw [hstep]
  cases hatt : att r with
  | ret df =>
    cases df with
    | none => rfl
    | some d =>
      rw [hatt] at h
      simp only [ChainAttempt.continuesLoop] at h
      dsimp only
      rw [if_neg (not_not_intro h)]
  | eikonErr c =>
    rw [hatt] at h
    simp only [ChainAttempt.continuesLoop, bne_iff_ne, ne_eq] at h
    dsimp only
    rw [if_neg h]
  | exc m => rfl

theorem chainLoopF_success (ric : String) (att : Nat → ChainAttempt) :
    ∀ (j fuel r : Nat) (df : DataFrame), j < fuel →
      att (r + j) = .ret (some df) → df.isEmpty = false →
      (∀ i, i < j → (att (r + i)).continuesLoop = true) →
      chainLoopF ric att r fuel = .ok (df, none) := by
  intro j
  induction j with
  | zero =>
    intro fuel r df hj hatt hne _
    obtain ⟨f, rfl⟩ : ∃ f, fuel = f + 1 := ⟨fuel - 1, by omega⟩
    unfold chainLoopF
    rw [Nat.add_zero] at hatt
    rw [hatt]
    dsimp only
    rw [if_pos (by simp [hne])]
  | succ n ih =>
    intro fuel r df hj hatt hne hcont
    obtain ⟨f, rfl⟩ : ∃ f, fuel = f + 1 := ⟨fuel - 1, by omega⟩
    rw [chainLoopF_continue ric att r f (by
      have := hcont 0 (by omega)
      rwa [Nat.add_zero] at this)]
    refine ih f (r + 1) df (by omega) ?_ hne ?_
    · rw [show r + 1 + n = r + (n + 1) by omega]
      exact hatt
    · intro i hi
      rw [show r + 1 + i = r + (i + 1) by omega]
      exact hcont (i + 1) (by omega)

theorem chainLoopF_exhaust (ric : String) (att : Nat → ChainAttempt) :
    ∀ (fuel r : Nat), (∀ i, i < fuel → (att (r + i)).continuesLoop = true) →
      chainLoopF ric att r fuel =
        (emptyDfChain ric).map (fun df => (df, some "Max retries exceeded.")) := by
  intro fuel
  induction fuel with
  | zero => intro r _; rfl
  | succ n ih =>
    intro r hcont
    rw [chainLoopF_continue ric att r n (by
      have := hcont 0 (by omega)
      rwa [Nat.add_zero] at this)]
    refine ih (r + 1) ?_
    intro i hi
    rw [show r + 1 + i = r + (i + 1) by omega]
    exact hcont (i + 1) (by omega)

/-- C2: the retry contract of `get_index_chain` with budget `M` (for a
nonempty prefixed identifier).  (a) A terminal fault — `EikonError` with
code -1 — on the first attempt returns immediately (for every outcome
sequence with that first attempt, i.e. later attempts are never made)
the one-row placeholder keyed by the prefixed identifier together with
the error message "Error: -1".  (b) If some attempt within the budget
returns a non-empty DataFrame and all earlier attempts were
loop-continuing (empty/malformed results, non-terminal error codes,
unexpected exceptions), that DataFrame is returned with error `None`.
(c) If all `M` attempts are loop-continuing, the placeholder is
returned with "Max retries exceeded.". -/
theorem getIndexChain_retry_contract (ric : String) (pre : Option String)
    (att : Nat → ChainAttempt) (M : Nat) (hric : applyPre pre ric ≠ "") :
    (1 ≤ M → att 0 = .eikonErr (-1) →
      getIndexChain ric pre att M =
        .ok (DataFrame.mk [applyPre pre ric] [[Cell.nan]], some "Error: -1")) ∧
    (∀ k df, k < M → att k = .ret (some df) → df.isEmpty = false →
      (∀ i, i < k → (att i).continuesLoop = true) →
      getIndexChain ric pre att M = .ok (df, none)) ∧
    ((∀ i, i < M → (att i).continuesLoop = true) →
      getIndexChain ric pre att M =
        .ok (DataFrame.mk [applyPre pre ric] [[Cell.nan]],
             some "Max retries exceeded.")) := by
  refine ⟨?_, ?_, ?_⟩
  · intro hM hatt
    obtain ⟨m, rfl⟩ : ∃ m, M = m + 1 := ⟨M - 1, by omega⟩
    unfold getIndexChain chainLoopF
    rw [hatt]
    dsimp only
    rw [if_pos rfl]
    unfold emptyDfChain
    rw [if_neg hric]
    rfl
  · intro k df hk hatt hne hcont
    unfold getIndexChain
    refine chainLoopF_success (applyPre pre ric) att k M 0 df hk ?_ hne ?_
    · rw [Nat.zero_add]; exact hatt
    · intro i hi; rw [Nat.zero_add]; exact hcont i hi
  · intro hcont
    unfold getIndexChain
    rw [chainLoopF_exhaust (applyPre pre ric) att M 0 (by
      intro i hi; rw [Nat.zero_add]; exact hcont i hi)]
    unfold emptyDfChain
    rw [if_neg hric]
    rfl

theorem getIndexChain_retry_contract_witness :
    applyPre (some "0#.") "SPX" ≠ "" ∧
    getIndexChain "SPX" (some "0#.") (fun _ => ChainAttempt.eikonErr (-1)) 3 =
      .ok (DataFrame.mk [applyPre (some "0#.") "SPX"] [[Cell.nan]],
           some "Error: -1") ∧
    getIndexChain "SPX" (some "0#.")
      (fun k => if k = 0 then ChainAttempt.exc "boom"
        else ChainAttempt.ret (some (DataFrame.mk ["0#.SPX"] [[Cell.num 1]]))) 3 =
      .ok (DataFrame.mk ["0#.SPX"] [[Cell.num 1]], none) ∧
    getIndexChain "SPX" (some "0#.") (fun _ => ChainAttempt.ret none) 2 =
      .ok (DataFrame.mk [applyPre (some "0#.") "SPX"] [[Cell.nan]],
           some "Max retries exceeded.") :=
  ⟨by decide,
   (getIndexChain_retry_contract "SPX" (some "0#.")
      (fun _ => ChainAttempt.eikonErr (-1)) 3 (by decide)).1 (by omega) rfl,
   (getIndexChain_retry_contract "SPX" (some "0#.")
      (fun k => if k = 0 then ChainAttempt.exc "boom"
        else ChainAttempt.ret (some (DataFrame.mk ["0#.SPX"] [[Cell.num 1]]))) 3
      (by decide)).2.1 1 (DataFrame.mk ["0#.SPX"] [[Cell.num 1]])
      (by omega) rfl rfl
      (by intro i hi
          obtain rfl : i = 0 := by omega
          rfl),
   (getIndexChain_retry_contract "SPX" (some "0#.")
      (fun _ => ChainAttempt.ret none) 2 (by decide)).2.2
      (by intro i _; rfl)⟩

/-!
## `EikonDownloader.get_constituents_data`
(src/eikondownloader/download/downloading.py, lines 673-817 and 915-934)

The remote `ek.get_data` call returns a `(df, err)` pair; `err` is
either `None` or a list of fault dicts with a `code` and a `message`.
Note on the placeholder: `_empty_df_data` (lines 915-934) is decorated
`@staticmethod` yet declares `self` as its first parameter.  The calls
`self._empty_df_data(rics, fields)` (lines 771 and 817) therefore bind
`self := rics` and `rics := fields`, leaving the `fields` parameter
unbound, and Python raises `TypeError` — which propagates out of the
method (it occurs inside an `except` handler / after the loop, where no
handler is active).  The embedding returns that `TypeError` as an
`Except.error`.
-/

/-- One fault entry of the error list returned by `ek.get_data`. -/
structure Fault where
  code : Int
  message : String
deriving DecidableEq, Repr

/-- Outcome of one `ek.get_data` call inside `get_constituents_data`:
a returned `(df, err)` pair (`df = none` models a non-DataFrame value),
a raised `ek.EikonError`, or another raised exception. -/
inductive DataAttempt
  | ret (df : Option DataFrame) (err : Option (List Fault))
  | eikonErr (code : Int)
  | exc (msg : String)

/-- The `TypeError` raised by the instance call
`self._empty_df_data(rics, fields)` (see the section comment). -/
def emptyDfDataTypeError : String :=
  "TypeError: _empty_df_data() missing 1 required positional argument: fields"

/-- The success test of `get_constituents_data` (lines 734-736):
`isinstance(df, DataFrame) and not df.empty and
df.shape[0] > int(len(rics) * 0.1)`.  `int(len(rics) * 0.1)` truncates
the float product; we embed it as the integer division `len(rics) / 10`
(the two agree except possibly for astronomically large lists where
binary-float rounding of `0.1` could differ). -/
def bigEnough (rics : List String) (df : Option DataFrame) : Bool :=
  match df with
  | some d => !d.isEmpty && decide (rics.length / 10 < d.data.length)
  | none => false

/-- The partial-resolution test of lines 742-744: `err` is truthy (a
non-empty list) and some entry has code 412. -/
def has412 (err : Option (List Fault)) : Bool :=
  match err with
  | some faults => !faults.isEmpty && faults.any (fun f => f.code == 412)
  | none => false

/-- Attempt outcomes on which `get_constituents_data`'s loop retries:
a returned pair that neither passes the success test nor carries a 412
fault, an `EikonError` with code other than -1, or another exception. -/
def DataAttempt.continuesLoop (rics : List String) : DataAttempt → Bool
  | .ret df err => !bigEnough rics df && !has412 err
  | .eikonErr c => c != -1
  | .exc _ => true

/-- `if isinstance(pre_fix, str): rics = [pre_fix + ric for ric in rics]`. -/
def applyPreList (pre : Option String) (rics : List String) : List String :=
  match pre with
  | some p => rics.map (fun r => p ++ r)
  | none => rics

/-- The `while retry_count < max_retries` loop of
`get_constituents_data` (downloading.py lines 714-817), fuel-indexed as
in `chainLoopF`.  The 412 branch returns whatever `ek.get_data`
returned as first component (even a non-DataFrame), hence the
`Option DataFrame` in the result.  The terminal (code -1) branch and
the post-loop return both call `self._empty_df_data(rics, fields)`,
which raises `TypeError` (section comment above). -/
def constituentsLoopF (rics : List String) (att : Nat → DataAttempt) :
    Nat → Nat → Except String (Option DataFrame × Option String)
  | _, 0 => .error emptyDfDataTypeError
  | retryCount, fuel + 1 =>
    match att retryCount with
    | .ret df err =>
      if bigEnough rics df then .ok (df, none)
      else if has412 err then .ok (df, none)
      else constituentsLoopF rics att (retryCount + 1) fuel
    | .eikonErr c =>
      if c = -1 then .error emptyDfDataTypeError
      else constituentsLoopF rics att (retryCount + 1) fuel
    | .exc _ => constituentsLoopF rics att (retryCount + 1) fuel

/-- `EikonDownloader.get_constituents_data` (downloading.py lines
673-817): applies the prefix to every RIC and runs the retry loop.
(`fields` only shapes the placeholder, whose construction raises.) -/
def getConstituentsData (rics fields : List String) (pre : Option String)
    (att : Nat → DataAttempt) (maxRetries : Nat) :
    Except String (Option DataFrame × Option String) :=
  constituentsLoopF (applyPreList pre rics) att 0 maxRetries

/-- C4 (code bug): on the terminal-skip path (first attempt raises
`EikonError` with code -1) and on the max-retries path,
`get_constituents_data` does not return a `(placeholder, error)` pair:
evaluating `self._empty_df_data(rics, fields)` raises `TypeError`
(because `_empty_df_data` is a `@staticmethod` that declares `self`),
and the exception propagates to the caller. -/
theorem getConstituentsData_typeerror :
    getConstituentsData ["AAPL.O"] ["TR.CommonName"] none
      (fun _ => DataAttempt.eikonErr (-1)) 5 = .error emptyDfDataTypeError ∧
    getConstituentsData ["AAPL.O"] ["TR.CommonName"] none
      (fun _ => DataAttempt.exc "boom") 2 = .error emptyDfDataTypeError :=
  ⟨rfl, rfl⟩

/-- C8: if the remote call returns without raising and the fault list
contains an entry with code 412, `get_constituents_data` returns the
received value with error `None` (either through the success branch or
through the partial-resolution branch), without retrying — the result
does not depend on any later attempt. -/
theorem getConstituentsData_partial412 (rics fields : List String)
    (pre : Option String) (att : Nat → DataAttempt) (M : Nat)
    (df : Option DataFrame) (faults : List Fault)
    (hM : 1 ≤ M) (hatt : att 0 = .ret df (some faults))
    (h412 : ∃ f ∈ faults, f.code = 412) :
    getConstituentsData rics fields pre att M = .ok (df, none) := by
  obtain ⟨m, rfl⟩ : ∃ m, M = m + 1 := ⟨M - 1, by omega⟩
  have h412b : has412 (some faults) = true := by
    obtain ⟨f, hf, hcode⟩ := h412
    have hne : faults.isEmpty = false := by
      cases faults with
      | nil => simp at hf
      | cons a l => rfl
    simp only [has412, hne, Bool.not_false, Bool.true_and, List.any_eq_true]
    exact ⟨f, hf, by simp [hcode]⟩
  unfold getConstituentsData constituentsLoopF
  rw [hatt]
  dsimp only
  cases hbig : bigEnough (applyPreList pre rics) df
  · rw [if_neg (by simp [hbig]), if_pos (by simp [h412b])]
  · rw [if_pos (by simp [hbig])]

theorem getConstituentsData_partial412_witness :
    (1 : Nat) ≤ 1 ∧
    (fun _ : Nat => DataAttempt.ret (some (DataFrame.mk ["Instrument"] [[Cell.str "A"]]))
        (some [Fault.mk 412 "Unable to resolve all requested identifiers."])) 0 =
      DataAttempt.ret (some (DataFrame.mk ["Instrument"] [[Cell.str "A"]]))
        (some [Fault.mk 412 "Unable to resolve all requested identifiers."]) ∧
    (∃ f ∈ [Fault.mk 412 "Unable to resolve all requested identifiers."],
      f.code = 412) ∧
    getConstituentsData ["A"] ["F"] none
      (fun _ => DataAttempt.ret (some (DataFrame.mk ["Instrument"] [[Cell.str "A"]]))
        (some [Fault.mk 412 "Unable to resolve all requested identifiers."])) 1 =
      .ok (some (DataFrame.mk ["Instrument"] [[Cell.str "A"]]), none) :=
  ⟨le_refl 1, rfl, ⟨_, List.mem_singleton.mpr rfl, rfl⟩,
    getConstituentsData_partial412 ["A"] ["F"] none _ 1
      (some (DataFrame.mk ["Instrument"] [[Cell.str "A"]]))
      [Fault.mk 412 "Unable to resolve all requested identifiers."]
      (le_refl 1) rfl ⟨_, List.mem_singleton.mpr rfl, rfl⟩⟩

/-!
## `EikonDownloader.get_stock_timeseries`
(src/eikondownloader/download/downloading.py, lines 481-671)

The method partitions `[start, end]` into the decade windows of
`generate_decade_dates`, runs one retry loop per window against
`ek.get_timeseries` (outcome schedule `att k` for window `k`), appends
either the fetched rows — sorted by date descending, column renamed to
the RIC — or a NaN placeholder, then concatenates all appended frames
and drops duplicate dates keeping the first occurrence.  A frame is a
single date-indexed column, which is the shape this code handles
(`ric_timeseries_df.columns = [ric]`).  `sort_index(ascending=False)`
is embedded as a stable descending insertion sort.
-/

/-- A single-column date-indexed frame. -/
structure Frame where
  name : String
  rows : List (Date × Cell)
deriving DecidableEq, Repr

/-- Outcome of one `ek.get_timeseries` call: a returned DataFrame
(its rows; possibly empty), a returned non-DataFrame value, a raised
`ek.EikonError`, or another raised exception. -/
inductive TsAttempt
  | data (rows : List (Date × Cell))
  | notDf
  | eikonErr (code : Int)
  | exc (msg : String)

def insertByDateDesc (x : Date × Cell) :
    List (Date × Cell) → List (Date × Cell)
  | [] => [x]
  | y :: ys => if y.1 ≤ x.1 then x :: y :: ys else y :: insertByDateDesc x ys

/-- Stable descending sort by date (`sort_index(ascending=False)`). -/
def sortByDateDesc : List (Date × Cell) → List (Date × Cell)
  | [] => []
  | x :: xs => insertByDateDesc x (sortByDateDesc xs)

/-- The `while retry_count < max_retries` loop run for one sub-range
(downloading.py lines 537-634), fuel-indexed as in `chainLoopF`:
`some rows` when a non-empty DataFrame was retrieved (sorted
descending), `none` when the loop ended without data — by the terminal
`break` on error code -1 (line 587-593) or by budget exhaustion.  All
other outcomes (empty frame, non-DataFrame, error codes 401/429/500/
2504/other, unexpected exceptions) sleep and retry. -/
def tsFetchLoopF (att : Nat → TsAttempt) : Nat → Nat → Option (List (Date × Cell))
  | _, 0 => none
  | retryCount, fuel + 1 =>
    match att retryCount with
    | .data rows =>
      if ¬ rows.isEmpty then some (sortByDateDesc rows)
      else tsFetchLoopF att (retryCount + 1) fuel
    | .notDf => tsFetchLoopF att (retryCount + 1) fuel
    | .eikonErr c =>
      if c = -1 then none else tsFetchLoopF att (retryCount + 1) fuel
    | .exc _ => tsFetchLoopF att (retryCount + 1) fuel

/-- The NaN placeholder appended when a sub-range retrieved no data
(downloading.py lines 636-649): `pd.DataFrame(index=..., columns=[ric],
data=np.nan)` where the index is `index_df.index` when an accumulating
`index_df` DataFrame was passed, and
`pd.date_range(start, end, freq='D')` otherwise.  `indexIdx` is the
index of the passed `index_df` (`none` when `index_df` is not a
DataFrame). -/
def nanFrame (ric : String) (indexIdx : Option (List Date))
    (w : Date × Date) : Frame :=
  Frame.mk ric ((match indexIdx with
    | some idx => idx
    | none => dateRangeDaily w.1 w.2).map (fun d => (d, Cell.nan)))

/-- The frame appended for one sub-range `w`: the fetched rows under
the RIC column name on success, the NaN placeholder otherwise. -/
def subRangeFrame (ric : String) (indexIdx : Option (List Date))
    (att : Nat → TsAttempt) (maxRetries : Nat) (w : Date × Date) : Frame :=
  match tsFetchLoopF att 0 maxRetries with
  | some rows => Frame.mk ric rows
  | none => nanFrame ric indexIdx w

/-- The `for start_date, end_date in zip(start_dates, end_dates)` loop
(line 535), accumulating one appended frame per sub-range; `k` is the
sub-range counter selecting the attempt schedule. -/
def framesFor (ric : String) (indexIdx : Option (List Date))
    (att : Nat → Nat → TsAttempt) (maxRetries : Nat) :
    Nat → List (Date × Date) → List Frame
  | _, [] => []
  | k, w :: ws =>
    subRangeFrame ric indexIdx (att k) maxRetries w ::
      framesFor ric indexIdx att maxRetries (k + 1) ws

/-- The mask `~merged.index.duplicated(keep='first')` (lines 656-658):
keep a row iff its date has not occurred earlier. -/
def dedupKeepFirst (seen : List Date) : List (Date × Cell) → List (Date × Cell)
  | [] => []
  | x :: xs =>
    if x.1 ∈ seen then dedupKeepFirst seen xs
    else x :: dedupKeepFirst (x.1 :: seen) xs

/-- The merge step of `get_stock_timeseries` (lines 651-658):
`pd.concat(..., axis=0)` stacks the appended frames in order, then
duplicate dates are dropped keeping the first occurrence. -/
def mergeFrames (frames : List Frame) : List (Date × Cell) :=
  dedupKeepFirst [] (frames.map Frame.rows).join

/-- `EikonDownloader.get_stock_timeseries` (downloading.py lines
481-671) up to and including its merge step: it returns the list of
appended per-window frames and the merged, deduplicated rows.  (The
final outer join of the merged series onto `index_df`, lines 660-664,
is presentation of the composite and not involved in the claims under
study.) -/
def getStockTimeseriesFrames (ric : String) (endDate : Date)
    (numYears : Option Int) (startDate : Option Date)
    (indexIdx : Option (List Date)) (att : Nat → Nat → TsAttempt)
    (maxRetries : Nat) :
    Except String (List Frame × List (Date × Cell)) :=
  match generate_decade_dates endDate numYears startDate with
  | .error msg => .error msg
  | .ok (ss, es) =>
    let frames := framesFor ric indexIdx att maxRetries 0 (ss.zip es)
    .ok (frames, mergeFrames frames)

theorem zip_map_fst_snd {α β : Type} :
    ∀ (l : List (α × β)), (l.map Prod.fst).zip (l.map Prod.snd) = l := by
  intro l
  induction l with
  | nil => rfl
  | cons x xs ih => simp [ih]

theorem framesFor_length (ric : String) (indexIdx : Option (List Date))
    (att : Nat → Nat → TsAttempt) (M : Nat) :
    ∀ (ws : List (Date × Date)) (k : Nat),
      (framesFor ric indexIdx att M k ws).length = ws.length := by
  intro ws
  induction ws with
  | nil => intro k; rfl
  | cons w ws ih =>
    intro k
    simp [framesFor, ih (k + 1)]

theorem framesFor_getElem (ric : String) (indexIdx : Option (List Date))
    (att : Nat → Nat → TsAttempt) (M : Nat) :
    ∀ (ws : List (Date × Date)) (k i : Nat),
      (framesFor ric indexIdx att M k ws)[i]? =
        ws[i]?.map (fun w => subRangeFrame ric indexIdx (att (k + i)) M w) := by
  intro ws
  induction ws with
  | nil => intro k i; simp [framesFor]
  | cons w ws ih =>
    intro k i
    cases i with
    | zero => simp [framesFor]
    | succ n =>
      simp only [framesFor, List.getElem?_cons_succ]
      rw [ih (k + 1) n, show k + 1 + n = k + (n + 1) by omega]

/-- C3 counterexample: the claim says the placeholder appended for a
sub-range with no data spans "exactly that sub-range's calendar days
..., not any other index".  With an accumulating `index_df` provided,
the source (downloading.py lines 642-648) builds the placeholder on
`index_df.index` instead: requesting the single-day sub-range
2021-01-01..2021-01-01 with `index_df` indexed by [2020-01-01] and all
attempts failing yields a placeholder indexed by [2020-01-01], which is
not the sub-range's calendar-day index [2021-01-01]. -/
theorem nan_placeholder_uses_index_df :
    getStockTimeseriesFrames "X" (Date.mk 2021 1 1) none (some (Date.mk 2021 1 1))
      (some [Date.mk 2020 1 1]) (fun _ _ => TsAttempt.exc "boom") 1 =
      .ok ([Frame.mk "X" [(Date.mk 2020 1 1, Cell.nan)]],
           [(Date.mk 2020 1 1, Cell.nan)]) ∧
    [(Date.mk 2020 1 1, Cell.nan)].map Prod.fst ≠
      dateRangeDaily (Date.mk 2021 1 1) (Date.mk 2021 1 1) :=
  ⟨rfl, by decide⟩

/-- C3 (amended): in `get_stock_timeseries`, for every sub-range on
which no data is retrieved (retry budget exhausted or terminal skip:
the fetch loop yields `none`), the appended frame is the NaN
placeholder: a single column named by the RIC, every value NaN, whose
index is the sub-range's exact calendar days — precisely the valid
dates of `[sub_start, sub_end]` — when no accumulating `index_df` is
provided, but `index_df`'s own index when one is. -/
theorem getStockTimeseries_nan_placeholder (ric : String) (s e : Date)
    (indexIdx : Option (List Date)) (att : Nat → Nat → TsAttempt) (M : Nat)
    (hs : s.Valid) (he : e.Valid) (hse : s ≤ e) :
    ∃ frames merged,
      getStockTimeseriesFrames ric e none (some s) indexIdx att M =
        .ok (frames, merged) ∧
      merged = mergeFrames frames ∧
      frames.length = (decadeWindows s e).length ∧
      (∀ k w, (decadeWindows s e)[k]? = some w →
        tsFetchLoopF (att k) 0 M = none →
        frames[k]? = some (nanFrame ric indexIdx w) ∧
        (nanFrame ric indexIdx w).name = ric ∧
        (∀ r ∈ (nanFrame ric indexIdx w).rows, r.2 = Cell.nan) ∧
        (indexIdx = none →
          (nanFrame ric indexIdx w).rows.map Prod.fst = dateRangeDaily w.1 w.2 ∧
          (∀ d : Date, d ∈ dateRangeDaily w.1 w.2 ↔
            (d.Valid ∧ w.1 ≤ d ∧ d ≤ w.2)))) := by
  have hgen : generate_decade_dates e none (some s) =
      .ok ((decadeWindows s e).map Prod.fst, (decadeWindows s e).map Prod.snd) := by
    unfold generate_decade_dates resolveStartDate
    dsimp only
    rw [if_neg (not_lt.mpr hse)]
  have hsy : s.year ≤ e.year := Date.year_le_of_le hse
  have hspec := decadeLoopF_spec s e hs he hse
    ((e.year - s.year).toNat / 10 + 1) e.year (by omega) hsy (le_refl _)
  have hw : decadeWindows s e =
      decadeLoopF s e ((e.year - s.year).toNat / 10 + 1) e.year := rfl
  rw [← hw, clipEnd_eq_self he] at hspec
  obtain ⟨_, _, _, hmem, _, _⟩ := hspec
  refine ⟨framesFor ric indexIdx att M 0 (decadeWindows s e),
    mergeFrames (framesFor ric indexIdx att M 0 (decadeWindows s e)), ?_, rfl,
    framesFor_length ric indexIdx att M (decadeWindows s e) 0, ?_⟩
  · unfold getStockTimeseriesFrames
    rw [hgen]
    dsimp only
    rw [zip_map_fst_snd]
  · intro k w hk hfail
    have hwmem : w ∈ decadeWindows s e := by
      have := List.getElem?_eq_some_iff.mp hk
      obtain ⟨h1, h2⟩ := this
      exact h2 ▸ List.getElem_mem h1
    obtain ⟨hv1, hv2, hv12, _, _, _⟩ := hmem w hwmem
    refine ⟨?_, rfl, ?_, ?_⟩
    · rw [framesFor_getElem ric indexIdx att M (decadeWindows s e) 0 k, hk]
      simp only [Option.map_some, Option.some.injEq, Nat.zero_add]
      unfold subRangeFrame
      rw [hfail]
      rfl
    · intro r hr
      unfold nanFrame at hr
      simp only [List.mem_map] at hr
      obtain ⟨d, _, hd⟩ := hr
      rw [← hd]
    · intro hnone
      subst hnone
      refine ⟨?_, fun d => dateRangeDaily_mem hv1 hv2 d⟩
      unfold nanFrame
      simp [Function.comp_def]

theorem getStockTimeseries_nan_placeholder_witness :
    (Date.mk 2021 1 1).Valid ∧ (Date.mk 2021 12 31).Valid ∧
    (Date.mk 2021 1 1) ≤ Date.mk 2021 12 31 ∧
    (∃ frames merged,
      getStockTimeseriesFrames "X" (Date.mk 2021 12 31) none
          (some (Date.mk 2021 1 1)) none (fun _ _ => TsAttempt.exc "boom") 2 =
        .ok (frames, merged) ∧
      merged = mergeFrames frames ∧
      frames.length = (decadeWindows (Date.mk 2021 1 1) (Date.mk 2021 12 31)).length ∧
      (∀ (k : Nat) (w : Date × Date),
        (decadeWindows (Date.mk 2021 1 1) (Date.mk 2021 12 31))[k]? = some w →
        tsFetchLoopF ((fun _ _ => TsAttempt.exc "boom") k) 0 2 = none →
        frames[k]? = some (nanFrame "X" none w) ∧
        (nanFrame "X" none w).name = "X" ∧
        (∀ r ∈ (nanFrame "X" none w).rows, r.2 = Cell.nan) ∧
        ((none : Option (List Date)) = none →
          (nanFrame "X" none w).rows.map Prod.fst = dateRangeDaily w.1 w.2 ∧
          (∀ d : Date, d ∈ dateRangeDaily w.1 w.2 ↔
            (d.Valid ∧ w.1 ≤ d ∧ d ≤ w.2))))) :=
  ⟨by decide, by decide, by decide,
    getStockTimeseries_nan_placeholder "X" (Date.mk 2021 1 1) (Date.mk 2021 12 31)
      none (fun _ _ => TsAttempt.exc "boom") 2 (by decide) (by decide) (by decide)⟩

/-- Number of rows of `l` carrying date `d`. -/
def countKey (d : Date) (l : List (Date × Cell)) : Nat :=
  l.countP (fun r => decide (r.1 = d))

/-- The first row value stored under date `d`, scanning left to right. -/
def lookupFirst (d : Date) : List (Date × Cell) → Option Cell
  | [] => none
  | r :: rest => if r.1 = d then some r.2 else lookupFirst d rest

theorem lookupFirst_cons (d : Date) (r : Date × Cell) (rest : List (Date × Cell)) :
    lookupFirst d (r :: rest) =
      if r.1 = d then some r.2 else lookupFirst d rest := rfl

theorem dedupKeepFirst_cons (seen : List Date) (x : Date × Cell)
    (xs : List (Date × Cell)) :
    dedupKeepFirst seen (x :: xs) =
      if x.1 ∈ seen then dedupKeepFirst seen xs
      else x :: dedupKeepFirst (x.1 :: seen) xs := rfl

/-- Each date not yet seen occurs in the deduplicated rows exactly once
if it occurs at all, and never if it was already seen. -/
theorem dedupKeepFirst_countKey (d : Date) :
    ∀ (l : List (Date × Cell)) (seen : List Date),
      countKey d (dedupKeepFirst seen l) =
        if d ∈ seen then 0 else (if lookupFirst d l = none then 0 else 1) := by
  intro l
  induction l with
  | nil =>
    intro seen
    simp [dedupKeepFirst, countKey, lookupFirst]
  | cons x xs ih =>
    intro seen
    by_cases hx : x.1 ∈ seen
    · rw [dedupKeepFirst_cons, if_pos hx, ih seen, lookupFirst_cons]
      by_cases hd : d ∈ seen
      · rw [if_pos hd, if_pos hd]
      · have hxd : ¬ x.1 = d := fun h => hd (h ▸ hx)
        rw [if_neg hd, if_neg hd, if_neg hxd]
    · rw [dedupKeepFirst_cons, if_neg hx]
      unfold countKey
      rw [List.countP_cons]
      have h2 := ih (x.1 :: seen)
      unfold countKey at h2
      rw [h2, lookupFirst_cons]
      by_cases hxd : x.1 = d
      · rw [if_pos (List.mem_cons.mpr (Or.inl hxd.symm)), if_pos hxd]
        have hds : d ∉ seen := fun h => hx (by rw [hxd]; exact h)
        rw [if_neg hds]
        simp [hxd]
      · rw [if_neg hxd]
        by_cases hd : d ∈ seen
        · rw [if_pos (List.mem_cons_of_mem _ hd), if_pos hd]
          simp [hxd]
        · rw [if_neg (by
            intro h
            rcases List.mem_cons.mp h with h | h
            · exact hxd h.symm
            · exact hd h), if_neg hd]
          simp [hxd]

/-- Deduplication keeps the first occurrence: the value found under an
unseen date is the one the concatenated rows stored first. -/
theorem dedupKeepFirst_lookupFirst (d : Date) :
    ∀ (l : List (Date × Cell)) (seen : List Date),
      lookupFirst d (dedupKeepFirst seen l) =
        if d ∈ seen then none else lookupFirst d l := by
  intro l
  induction l with
  | nil =>
    intro seen
    simp [dedupKeepFirst, lookupFirst]
  | cons x xs ih =>
    intro seen
    by_cases hx : x.1 ∈ seen
    · rw [dedupKeepFirst_cons, if_pos hx, ih seen, lookupFirst_cons]
      by_cases hd : d ∈ seen
      · rw [if_pos hd, if_pos hd]
      · have hxd : ¬ x.1 = d := fun h => hd (h ▸ hx)
        rw [if_neg hd, if_neg hd, if_neg hxd]
    · rw [dedupKeepFirst_cons, if_neg hx, lookupFirst_cons, lookupFirst_cons]
      by_cases hxd : x.1 = d
      · rw [if_pos hxd, if_pos hxd]
        have hds : d ∉ seen := fun h => hx (by rw [hxd]; exact h)
        rw [if_neg hds]
      · rw [if_neg hxd, if_neg hxd, ih (x.1 :: seen)]
        by_cases hd : d ∈ seen
        · rw [if_pos (List.mem_cons_of_mem _ hd), if_pos hd]
        · rw [if_neg (by
            intro h
            rcases List.mem_cons.mp h with h | h
            · exact hxd h.symm
            · exact hd h), if_neg hd]

theorem lookupFirst_append_none (d : Date) {a : List (Date × Cell)}
    (b : List (Date × Cell)) (h : lookupFirst d a = none) :
    lookupFirst d (a ++ b) = lookupFirst d b := by
  induction a with
  | nil => rfl
  | cons x xs ih =>
    rw [lookupFirst_cons] at h
    rw [List.cons_append, lookupFirst_cons]
    by_cases hxd : x.1 = d
    · rw [if_pos hxd] at h
      exact absurd h (by simp)
    · rw [if_neg hxd] at h ⊢
      exact ih h

theorem lookupFirst_append_some (d : Date) {a : List (Date × Cell)}
    (b : List (Date × Cell)) {v : Cell} (h : lookupFirst d a = some v) :
    lookupFirst d (a ++ b) = some v := by
  induction a with
  | nil => simp [lookupFirst] at h
  | cons x xs ih =>
    rw [lookupFirst_cons] at h
    rw [List.cons_append, lookupFirst_cons]
    by_cases hxd : x.1 = d
    · rw [if_pos hxd] at h ⊢
      exact h
    · rw [if_neg hxd] at h ⊢
      exact ih h

theorem lookupFirst_join_none (d : Date) :
    ∀ (fs : List Frame), (∀ f ∈ fs, lookupFirst d f.rows = none) →
      lookupFirst d (fs.map Frame.rows).join = none := by
  intro fs
  induction fs with
  | nil => intro _; rfl
  | cons f fs ih =>
    intro h
    have hj : ((f :: fs).map Frame.rows).join =
        f.rows ++ (fs.map Frame.rows).join := rfl
    rw [hj, lookupFirst_append_none d _ (h f (List.mem_cons_self _ _))]
    exact ih (fun g hg => h g (List.mem_cons_of_mem _ hg))

theorem lookupFirst_join_split (d : Date) :
    ∀ (pre rest : List Frame),
      (∀ f ∈ pre, lookupFirst d f.rows = none) →
      lookupFirst d ((pre ++ rest).map Frame.rows).join =
        lookupFirst d (rest.map Frame.rows).join := by
  intro pre
  induction pre with
  | nil => intro rest _; rfl
  | cons p ps ih =>
    intro rest h
    have hj : ((p :: ps ++ rest).map Frame.rows).join =
        p.rows ++ ((ps ++ rest).map Frame.rows).join := rfl
    rw [hj, lookupFirst_append_none d _ (h p (List.mem_cons_self _ _))]
    exact ih rest (fun g hg => h g (List.mem_cons_of_mem _ hg))

/-- C5: in the merge step of `get_stock_timeseries` (concatenate the
appended sub-range frames in append order, then drop duplicated dates
keeping the first occurrence), a date that occurs in two (or more)
appended frames occurs exactly once in the merged rows, and the kept
row is the first row of the frame that was appended first among those
containing the date — whatever the processing order that produced the
frame list was. -/
theorem mergeFrames_first_seen_wins (d : Date) (pre mid post : List Frame)
    (fi fj : Frame) (v : Cell)
    (hpre : ∀ f ∈ pre, lookupFirst d f.rows = none)
    (hfi : lookupFirst d fi.rows = some v)
    (hfj : lookupFirst d fj.rows ≠ none) :
    countKey d (mergeFrames (pre ++ (fi :: (mid ++ (fj :: post))))) = 1 ∧
    lookupFirst d (mergeFrames (pre ++ (fi :: (mid ++ (fj :: post))))) =
      lookupFirst d fi.rows := by
  have hj1 : lookupFirst d ((pre ++ (fi :: (mid ++ (fj :: post)))).map Frame.rows).join =
      lookupFirst d ((fi :: (mid ++ (fj :: post))).map Frame.rows).join :=
    lookupFirst_join_split d pre (fi :: (mid ++ (fj :: post))) hpre
  have hj2 : lookupFirst d ((fi :: (mid ++ (fj :: post))).map Frame.rows).join =
      some v := by
    have hstep : ((fi :: (mid ++ (fj :: post))).map Frame.rows).join =
        fi.rows ++ ((mid ++ (fj :: post)).map Frame.rows).join := rfl
    rw [hstep]
    exact lookupFirst_append_some d _ hfi
  unfold mergeFrames
  constructor
  · rw [dedupKeepFirst_countKey d _ [], if_neg (List.not_mem_nil d), hj1, hj2]
    simp
  · rw [dedupKeepFirst_lookupFirst d _ [], if_neg (List.not_mem_nil d), hj1, hj2,
      hfi]

theorem mergeFrames_first_seen_wins_witness :
    (∀ f ∈ ([] : List Frame), lookupFirst (Date.mk 2024 1 2) f.rows = none) ∧
    lookupFirst (Date.mk 2024 1 2)
      (Frame.mk "X" [(Date.mk 2024 1 2, Cell.num 1)]).rows = some (Cell.num 1) ∧
    lookupFirst (Date.mk 2024 1 2)
      (Frame.mk "X" [(Date.mk 2024 1 2, Cell.num 2)]).rows ≠ none ∧
    (countKey (Date.mk 2024 1 2)
      (mergeFrames ([] ++ ((Frame.mk "X" [(Date.mk 2024 1 2, Cell.num 1)]) :: ([] ++
        ((Frame.mk "X" [(Date.mk 2024 1 2, Cell.num 2)]) :: []))))) = 1 ∧
     lookupFirst (Date.mk 2024 1 2)
      (mergeFrames ([] ++ ((Frame.mk "X" [(Date.mk 2024 1 2, Cell.num 1)]) :: ([] ++
        ((Frame.mk "X" [(Date.mk 2024 1 2, Cell.num 2)]) :: []))))) =
      lookupFirst (Date.mk 2024 1 2)
        (Frame.mk "X" [(Date.mk 2024 1 2, Cell.num 1)]).rows) :=
  ⟨by simp, by decide, by decide,
    mergeFrames_first_seen_wins (Date.mk 2024 1 2) [] [] []
      (Frame.mk "X" [(Date.mk 2024 1 2, Cell.num 1)])
      (Frame.mk "X" [(Date.mk 2024 1 2, Cell.num 2)]) (Cell.num 1)
      (by simp) (by decide) (by decide)⟩

/-!
## `OSDownloader.download_bucket`
(src/eikondownloader/download/downloading.py, lines 1162-1293)

The sync engine lists the remote objects of a bucket, skips every
object whose intended local file already exists with an MD5 checksum
equal to the remote etag, downloads the remaining ones and classifies
each attempted transfer by the result of `_download_file` — `True`
(fetched and post-download checksum verification passed, appended to
`downloaded_files`) or `False` (fetch error or checksum mismatch,
appended to `corrupted_files`).  `_download_file` catches `S3Error` and
`Exception` and returns `False`, so `future.result()` never raises in
the model and the futures-loop `except` branch (which appends to no
list) is unreachable; the class keeps no third list, so the failed set
of the claim is empty.  The thread pool only affects the order in which
outcomes are appended, never the membership of the outcome sets, so the
embedding processes the queue in submission order.

The model's environment: `fs` maps local paths to file contents,
`hashF` is the MD5 model, `fetch` gives the content delivered by
`fget_object` for a remote path (or the raised error).
-/

/-- A remote object of the bucket listing: its name and etag. -/
structure RemoteObj where
  name : String
  etag : String
deriving DecidableEq, Repr

/-- `os.path.join(self.files_path, remote_path)`. -/
def localPath (filesPath remote : String) : String :=
  filesPath ++ "/" ++ remote

/-- `OSDownloader._verify_file_integrity` (lines 1276-1293): MD5 of the
local file equals the remote etag; any failure (e.g. missing file)
yields `False`. -/
def verifyIntegrity (hashF : String → String) (fs : String → Option String)
    (etag path : String) : Bool :=
  match fs path with
  | some c => hashF c == etag
  | none => false

/-- The skip test of `download_bucket` (lines 1189-1194):
`os.path.exists(local) and self._verify_file_integrity(...)`. -/
def skipDownload (hashF : String → String) (fs : String → Option String)
    (filesPath : String) (obj : RemoteObj) : Bool :=
  (fs (localPath filesPath obj.name)).isSome &&
    verifyIntegrity hashF fs obj.etag (localPath filesPath obj.name)

/-- `OSDownloader._download_file` (lines 1250-1274): fetch the object
to the local path and verify its integrity; `S3Error` and any other
exception yield `False`.  After a successful fetch the local file holds
exactly the delivered content, so the verification hashes it. -/
def downloadFile (hashF : String → String) (fetch : String → Except String String)
    (obj : RemoteObj) : Bool :=
  match fetch obj.name with
  | .ok c => hashF c == obj.etag
  | .error _ => false

/-- The futures loop of `download_bucket` (lines 1206-1227): one
outcome per queued transfer, `True` appended to the downloaded list and
`False` to the corrupted list (in submission order; completion order
only permutes the lists). -/
def classifyTransfers (hashF : String → String)
    (fetch : String → Except String String) :
    List RemoteObj → List String × List String
  | [] => ([], [])
  | obj :: rest =>
    let done := classifyTransfers hashF fetch rest
    if downloadFile hashF fetch obj then (obj.name :: done.1, done.2)
    else (done.1, obj.name :: done.2)

/-- `OSDownloader.download_bucket` (lines 1162-1248): returns the
queued transfers and the `(downloaded_files, corrupted_files,
failed)` outcome sets, where the failed set is empty because no
attempted transfer escapes `_download_file`'s two handlers (see the
section comment). -/
def downloadBucket (hashF : String → String) (fs : String → Option String)
    (fetch : String → Except String String) (filesPath : String)
    (remoteFiles : List RemoteObj) :
    List RemoteObj × (List String × List String × List String) :=
  let queued := remoteFiles.filter (fun obj => ! skipDownload hashF fs filesPath obj)
  let outcome := classifyTransfers hashF fetch queued
  (queued, (outcome.1, outcome.2, []))

theorem classifyTransfers_mem_downloaded (hashF : String → String)
    (fetch : String → Except String String) :
    ∀ (l : List RemoteObj) (n : String),
      n ∈ (classifyTransfers hashF fetch l).1 ↔
        ∃ obj ∈ l, obj.name = n ∧ downloadFile hashF fetch obj = true := by
  intro l
  induction l with
  | nil => intro n; simp [classifyTransfers]
  | cons obj rest ih =>
    intro n
    unfold classifyTransfers
    dsimp only
    cases hdl : downloadFile hashF fetch obj
    · rw [if_neg (by simp [hdl])]
      rw [ih n]
      constructor
      · rintro ⟨o, ho, h1, h2⟩
        exact ⟨o, List.mem_cons_of_mem _ ho, h1, h2⟩
      · rintro ⟨o, ho, h1, h2⟩
        rcases List.mem_cons.mp ho with rfl | ho
        · rw [hdl] at h2; cases h2
        · exact ⟨o, ho, h1, h2⟩
    · rw [if_pos (by simp [hdl])]
      simp only [List.mem_cons]
      constructor
      · rintro (rfl | h)
        · exact ⟨obj, Or.inl rfl, rfl, hdl⟩
        · obtain ⟨o, ho, h1, h2⟩ := (ih n).mp h
          exact ⟨o, Or.inr ho, h1, h2⟩
      · rintro ⟨o, ho, h1, h2⟩
        rcases ho with rfl | ho
        · exact Or.inl h1.symm
        · exact Or.inr ((ih n).mpr ⟨o, ho, h1, h2⟩)

theorem classifyTransfers_mem_corrupted (hashF : String → String)
    (fetch : String → Except String String) :
    ∀ (l : List RemoteObj) (n : String),
      n ∈ (classifyTransfers hashF fetch l).2 ↔
        ∃ obj ∈ l, obj.name = n ∧ downloadFile hashF fetch obj = false := by
  intro l
  induction l with
  | nil => intro n; simp [classifyTransfers]
  | cons obj rest ih =>
    intro n
    unfold classifyTransfers
    dsimp only
    cases hdl : downloadFile hashF fetch obj
    · rw [if_neg (by simp [hdl])]
      simp only [List.mem_cons]
      constructor
      · rintro (rfl | h)
        · exact ⟨obj, Or.inl rfl, rfl, hdl⟩
        · obtain ⟨o, ho, h1, h2⟩ := (ih n).mp h
          exact ⟨o, Or.inr ho, h1, h2⟩
      · rintro ⟨o, ho, h1, h2⟩
        rcases ho with rfl | ho
        · exact Or.inl h1.symm
        · exact Or.inr ((ih n).mpr ⟨o, ho, h1, h2⟩)
    · rw [if_pos (by simp [hdl])]
      rw [ih n]
      constructor
      · rintro ⟨o, ho, h1, h2⟩
        exact ⟨o, List.mem_cons_of_mem _ ho, h1, h2⟩
      · rintro ⟨o, ho, h1, h2⟩
        rcases List.mem_cons.mp ho with rfl | ho
        · rw [hdl] at h2; cases h2
        · exact ⟨o, ho, h1, h2⟩

/-- C9: in `OSDownloader.download_bucket`, (a) a remote object whose
intended local file already exists with a checksum equal to the
remote's is never queued for download; (b) every attempted (queued)
transfer ends up in exactly one of the outcome sets transferred,
corrupted, failed — they partition the attempted set with no overlap
(the failed set is empty: no attempted transfer escapes
`_download_file`); and (c) an object is recorded as transferred only if
its post-download checksum verification against the remote checksum
succeeded. -/
theorem downloadBucket_spec (hashF : String → String)
    (fs : String → Option String) (fetch : String → Except String String)
    (filesPath : String) (remoteFiles : List RemoteObj)
    (hnodup : (remoteFiles.map RemoteObj.name).Nodup) :
    ∃ queued downloaded corrupted failed,
      downloadBucket hashF fs fetch filesPath remoteFiles =
        (queued, (downloaded, corrupted, failed)) ∧
      (∀ obj ∈ remoteFiles,
        (∃ c, fs (localPath filesPath obj.name) = some c ∧ hashF c = obj.etag) →
        obj ∉ queued) ∧
      failed = [] ∧
      (∀ obj ∈ queued,
        (obj.name ∈ downloaded ∧ obj.name ∉ corrupted ∧ obj.name ∉ failed) ∨
        (obj.name ∉ downloaded ∧ obj.name ∈ corrupted ∧ obj.name ∉ failed)) ∧
      (∀ n : String, (n ∈ downloaded ∨ n ∈ corrupted ∨ n ∈ failed) →
        ∃ obj ∈ queued, obj.name = n) ∧
      (∀ obj ∈ queued, obj.name ∈ downloaded →
        ∃ c, fetch obj.name = .ok c ∧ hashF c = obj.etag) := by
  refine ⟨remoteFiles.filter (fun obj => ! skipDownload hashF fs filesPath obj),
    (classifyTransfers hashF fetch
      (remoteFiles.filter (fun obj => ! skipDownload hashF fs filesPath obj))).1,
    (classifyTransfers hashF fetch
      (remoteFiles.filter (fun obj => ! skipDownload hashF fs filesPath obj))).2,
    [], rfl, ?_, rfl, ?_, ?_, ?_⟩
  all_goals
    set q := remoteFiles.filter (fun obj => ! skipDownload hashF fs filesPath obj)
      with hq
  case refine_1 =>
    intro obj _ hmatch hmem
    obtain ⟨c, hfs, hh⟩ := hmatch
    have hskip : skipDownload hashF fs filesPath obj = true := by
      unfold skipDownload verifyIntegrity
      rw [hfs]
      simp [hh]
    have := (List.mem_filter.mp hmem).2
    rw [hskip] at this
    cases this
  case refine_2 =>
    have hqn : (q.map RemoteObj.name).Nodup :=
      hnodup.sublist ((List.filter_sublist _).map RemoteObj.name)
    intro obj hmem
    cases hdl : downloadFile hashF fetch obj
    · refine Or.inr ⟨?_, ?_, List.not_mem_nil _⟩
      · intro hin
        obtain ⟨o, ho, hn, ht⟩ :=
          (classifyTransfers_mem_downloaded hashF fetch q obj.name).mp hin
        have : o = obj := List.inj_on_of_nodup_map hqn ho hmem hn
        rw [this, hdl] at ht
        cases ht
      · exact (classifyTransfers_mem_corrupted hashF fetch q obj.name).mpr
          ⟨obj, hmem, rfl, hdl⟩
    · refine Or.inl ⟨?_, ?_, List.not_mem_nil _⟩
      · exact (classifyTransfers_mem_downloaded hashF fetch q obj.name).mpr
          ⟨obj, hmem, rfl, hdl⟩
      · intro hin
        obtain ⟨o, ho, hn, ht⟩ :=
          (classifyTransfers_mem_corrupted hashF fetch q obj.name).mp hin
        have : o = obj := List.inj_on_of_nodup_map hqn ho hmem hn
        rw [this, hdl] at ht
        cases ht
  case refine_3 =>
    intro n hn
    rcases hn with hn | hn | hn
    · obtain ⟨o, ho, hname, _⟩ :=
        (classifyTransfers_mem_downloaded hashF fetch q n).mp hn
      exact ⟨o, ho, hname⟩
    · obtain ⟨o, ho, hname, _⟩ :=
        (classifyTransfers_mem_corrupted hashF fetch q n).mp hn
      exact ⟨o, ho, hname⟩
    · cases hn
  case refine_4 =>
    have hqn : (q.map RemoteObj.name).Nodup :=
      hnodup.sublist ((List.filter_sublist _).map RemoteObj.name)
    intro obj hmem hin
    obtain ⟨o, ho, hn, ht⟩ :=
      (classifyTransfers_mem_downloaded hashF fetch q obj.name).mp hin
    have heq : o = obj := List.inj_on_of_nodup_map hqn ho hmem hn
    rw [heq] at ht
    unfold downloadFile at ht
    cases hf : fetch obj.name with
    | ok c =>
      rw [hf] at ht
      exact ⟨c, rfl, eq_of_beq ht⟩
    | error msg =>
      rw [hf] at ht
      cases ht

theorem downloadBucket_spec_witness :
    ((([RemoteObj.mk "a.csv" "a", RemoteObj.mk "b.csv" "bad"]).map
        RemoteObj.name).Nodup) ∧
    (∃ queued downloaded corrupted failed,
      downloadBucket (fun c => c) (fun _ => none) (fun n => .ok n) "data"
          [RemoteObj.mk "a.csv" "a", RemoteObj.mk "b.csv" "bad"] =
        (queued, (downloaded, corrupted, failed)) ∧
      (∀ obj ∈ [RemoteObj.mk "a.csv" "a", RemoteObj.mk "b.csv" "bad"],
        (∃ c, (fun _ => (none : Option String)) (localPath "data" obj.name) = some c ∧
          (fun c => c) c = obj.etag) →
        obj ∉ queued) ∧
      failed = [] ∧
      (∀ obj ∈ queued,
        (obj.name ∈ downloaded ∧ obj.name ∉ corrupted ∧ obj.name ∉ failed) ∨
        (obj.name ∉ downloaded ∧ obj.name ∈ corrupted ∧ obj.name ∉ failed)) ∧
      (∀ n : String, (n ∈ downloaded ∨ n ∈ corrupted ∨ n ∈ failed) →
        ∃ obj ∈ queued, obj.name = n) ∧
      (∀ obj ∈ queued, obj.name ∈ downloaded →
        ∃ c, (fun n => (Except.ok n : Except String String)) obj.name = .ok c ∧
          (fun c => c) c = obj.etag)) :=
  ⟨by decide,
    downloadBucket_spec (fun c => c) (fun _ => none) (fun n => .ok n) "data"
      [RemoteObj.mk "a.csv" "a", RemoteObj.mk "b.csv" "bad"] (by decide)⟩

def split_list {α : Type} (lst : List α) (chunk_size : Nat) : List (List α) :=
  (List.range ((lst.length + chunk_size - 1) / chunk_size)).map
    (fun i => (lst.drop (i * chunk_size)).take chunk_size)

lemma split_list_nil {α : Type} (k : Nat) : split_list ([] : List α) k = [] := by
  unfold split_list
  have h0 : (List.length ([] : List α) + k - 1) / k = 0 := by
    rcases Nat.eq_zero_or_pos k with h | h
    · subst h; simp
    · exact Nat.div_eq_of_lt (by simp; omega)
  rw [h0]
  rfl

lemma split_list_cons {α : Type} (k : Nat) (hk : 0 < k) (lst : List α)
    (h : lst ≠ []) :
    split_list lst k = lst.take k :: split_list (lst.drop k) k := by
  unfold split_list
  have hn : 0 < lst.length := List.length_pos.mpr h
  have h1 : (lst.length + k - 1) / k = (lst.length - 1) / k + 1 := by
    have he : lst.length + k - 1 = (lst.length - 1) + k := by omega
    rw [he, Nat.add_div_right _ hk]
  have h2 : ((lst.drop k).length + k - 1) / k = (lst.length - 1) / k := by
    rw [List.length_drop]
    rcases le_or_lt k lst.length with hle | hlt
    · have he : lst.length - k + k - 1 = lst.length - 1 := by omega
      rw [he]
    · have e0 : lst.length - k = 0 := by omega
      rw [e0]
      rw [Nat.div_eq_of_lt (by omega)]
      exact (Nat.div_eq_of_lt (by omega)).symm
  rw [h1, h2, List.range_succ_eq_map, List.map_cons, List.map_map]
  congr 1
  · simp
  · apply List.map_congr_left
    intro i _
    dsimp only [Function.comp_apply]
    rw [List.drop_drop]
    have he : (i + 1) * k = k + i * k := by ring
    rw [he]

lemma split_list_props {α : Type} (k : Nat) (hk : 0 < k) :
    ∀ (n : Nat) (lst : List α), lst.length ≤ n →
      (split_list lst k).join = lst ∧
      (∀ (pre post : List (List α)) (c : List α),
        split_list lst k = pre ++ (c :: post) → post ≠ [] → c.length = k) ∧
      (∀ c ∈ split_list lst k, c ≠ [] ∧ c.length ≤ k) := by
  intro n
  induction n with
  | zero =>
    intro lst hlen
    have he : lst = [] := List.eq_nil_of_length_eq_zero (by omega)
    subst he
    rw [split_list_nil]
    refine ⟨rfl, ?_, ?_⟩
    · intro pre post c hsplit _
      rcases pre with _ | ⟨p, pre⟩ <;> simp at hsplit
    · intro c hc
      cases hc
  | succ n ih =>
    intro lst hlen
    rcases eq_or_ne lst [] with rfl | hne
    · rw [split_list_nil]
      refine ⟨rfl, ?_, ?_⟩
      · intro pre post c hsplit _
        rcases pre with _ | ⟨p, pre⟩ <;> simp at hsplit
      · intro c hc
        cases hc
    · have hcons := split_list_cons k hk lst hne
      have hdlen : (lst.drop k).length ≤ n := by
        rw [List.length_drop]
        have hp : 0 < lst.length := List.length_pos.mpr hne
        omega
      obtain ⟨ihj, ihp, ihm⟩ := ih (lst.drop k) hdlen
      rw [hcons]
      refine ⟨?_, ?_, ?_⟩
      · have hj : (lst.take k :: split_list (lst.drop k) k).join
            = lst.take k ++ (split_list (lst.drop k) k).join := rfl
        rw [hj, ihj, List.take_append_drop]
      · intro pre post c hsplit hpost
        cases pre with
        | nil =>
          rw [List.nil_append] at hsplit
          injection hsplit with hc htail
          have htne : split_list (lst.drop k) k ≠ [] := by
            rw [htail]
            intro he
            exact hpost he
          have hdne : lst.drop k ≠ [] := by
            intro he
            apply htne
            rw [he, split_list_nil]
          have hkl : k < lst.length := by
            by_contra hcon
            exact hdne (List.drop_eq_nil_of_le (by omega))
          rw [← hc, List.length_take]
          omega
        | cons p pre =>
          rw [List.cons_append] at hsplit
          injection hsplit with h1 h2
          exact ihp pre post c h2 hpost
      · intro c hc
        rcases List.mem_cons.mp hc with rfl | hc
        · constructor
          · intro he
            have hl : (lst.take k).length = 0 := by rw [he]; rfl
            rw [List.length_take] at hl
            have hp : 0 < lst.length := List.length_pos.mpr hne
            omega
          · rw [List.length_take]
            omega
        · exact ihm c hc

/-- C10: for every list and every positive chunk size,
`DataProcessor.split_list` returns chunks whose in-order concatenation
is exactly the input list (nothing lost, duplicated or reordered);
every chunk that is followed by another chunk has exactly chunk_size
elements; every chunk is non-empty (hence at most chunk_size elements
each, with only the last possibly shorter); and the empty list yields
zero chunks. -/
theorem split_list_spec {α : Type} (lst : List α) (k : Nat) (hk : 0 < k) :
    (split_list lst k).join = lst ∧
    (∀ (pre post : List (List α)) (c : List α),
      split_list lst k = pre ++ (c :: post) → post ≠ [] → c.length = k) ∧
    (∀ c ∈ split_list lst k, c ≠ [] ∧ c.length ≤ k) ∧
    split_list ([] : List α) k = [] :=
  ⟨(split_list_props k hk lst.length lst le_rfl).1,
   (split_list_props k hk lst.length lst le_rfl).2.1,
   (split_list_props k hk lst.length lst le_rfl).2.2,
   split_list_nil k⟩

theorem split_list_spec_witness :
    (0 < 2 ∧ split_list [1, 2, 3, 4, 5] 2 = [[1, 2], [3, 4], [5]]) ∧
    ((split_list [1, 2, 3, 4, 5] 2).join = [1, 2, 3, 4, 5] ∧
     (∀ (pre post : List (List Nat)) (c : List Nat),
       split_list [1, 2, 3, 4, 5] 2 = pre ++ (c :: post) → post ≠ [] →
       c.length = 2) ∧
     (∀ c ∈ split_list [1, 2, 3, 4, 5] 2, c ≠ [] ∧ c.length ≤ 2) ∧
     split_list ([] : List Nat) 2 = []) :=
  ⟨⟨by decide, by rfl⟩, split_list_spec [1, 2, 3, 4, 5] 2 (by decide)⟩
